import Mathlib

/-!
Verification of the paper-hand text-processing core (Go) against its
natural-language specification.  The Go sources are shallowly embedded:
strings are Lean `String`s (both Go and Lean strings are UTF-8; Go `len`
on a string is modelled by the summed UTF-8 size of the characters),
maps iterated in arbitrary order are modelled as lists quantified over
permutations, and `float64` scores are modelled by a float model
(`GoFloat`) that tracks NaN and infinities and rounds every arithmetic
operation to the nearest IEEE-754 binary64 value (ties to even).
-/

namespace PaperHand

/-- Go `unicode.IsSpace`: the Unicode White_Space property, exactly the
code points in Go's `unicode.White_Space` range table. -/
def goIsSpace (c : Char) : Bool :=
  let n := c.toNat
  (0x0009 ≤ n && n ≤ 0x000D) || n == 0x0020 || n == 0x0085 || n == 0x00A0 ||
  n == 0x1680 || (0x2000 ≤ n && n ≤ 0x200A) || n == 0x2028 || n == 0x2029 ||
  n == 0x202F || n == 0x205F || n == 0x3000

/-- Characters of a string, as a list. -/
def chars (s : String) : List Char := s.data

/-- Rebuild a string from characters. -/
def ofChars (l : List Char) : String := ⟨l⟩

/-- Go `len(s)` on a string: number of UTF-8 bytes. -/
def goLen (s : String) : Nat := (chars s).foldl (fun n c => n + c.utf8Size) 0

/-- Go `strings.TrimSpace` (trim by `unicode.IsSpace` on both ends). -/
def goTrimSpace (s : String) : String :=
  ofChars (((chars s).dropWhile goIsSpace).reverse.dropWhile goIsSpace |>.reverse)

/-- Go `strings.TrimRightFunc(s, unicode.IsSpace)`. -/
def goTrimRight (s : String) : String :=
  ofChars ((chars s).reverse.dropWhile goIsSpace |>.reverse)

/-- Go `strings.HasPrefix`. -/
def goHasPrefixL (pat l : List Char) : Bool := pat.isPrefixOf l

/-- Go `strings.HasSuffix`. -/
def goHasSuffixL (pat l : List Char) : Bool := pat.reverse.isPrefixOf l.reverse

/-- Go `strings.TrimSuffix`. -/
def goTrimSuffix (s pat : String) : String :=
  if goHasSuffixL (chars pat) (chars s) then
    ofChars ((chars s).take ((chars s).length - (chars pat).length))
  else s

/-- Go `strings.ReplaceAll` on character lists (leftmost, non-overlapping;
the patterns used in the sources are never empty).  `fuel` bounds the
number of consumed characters; it is initialised to the list length, and
every step consumes at least one character, so the fuel never runs out. -/
def replaceAllF (pat sub : List Char) : Nat → List Char → List Char
  | 0, l => l
  | _, [] => []
  | fuel + 1, c :: cs =>
    if pat.isPrefixOf (c :: cs) && !pat.isEmpty then
      sub ++ replaceAllF pat sub fuel (cs.drop (pat.length - 1))
    else
      c :: replaceAllF pat sub fuel cs

/-- Go `strings.ReplaceAll` on character lists. -/
def replaceAllL (pat sub : List Char) (l : List Char) : List Char :=
  replaceAllF pat sub l.length l

/-- Go `strings.ReplaceAll` on strings. -/
def goReplaceAll (s pat sub : String) : String :=
  ofChars (replaceAllL (chars pat) (chars sub) (chars s))

/-- Go `strings.Join` / `strings.Split`-inverse: join with a separator. -/
def goJoin (sep : String) : List String → String
  | [] => ""
  | [x] => x
  | x :: xs => x ++ sep ++ goJoin sep xs

/-- Split a character list at every occurrence of the character `sep`. -/
def splitOnCharL (sep : Char) : List Char → List (List Char)
  | [] => [[]]
  | c :: cs =>
    let rest := splitOnCharL sep cs
    if c = sep then [] :: rest
    else
      match rest with
      | [] => [[c]]
      | r :: rs => (c :: r) :: rs

/-- `splitLines` from the normalizer: normalize Windows line breaks, then
split on `\n` (Go `strings.Split`). -/
def splitLines (s : String) : List String :=
  (splitOnCharL '\n' (replaceAllL ['\r', '\n'] ['\n'] (chars s))).map ofChars

/-- Replace every maximal run of characters satisfying `p` by a single
space (the tab/formfeed/vertical-tab/no-break-space run step of
`collapseWhitespace`).  `inRun` records whether the previous character
belonged to a run. -/
def collapseClassRunsA (p : Char → Bool) (inRun : Bool) : List Char → List Char
  | [] => []
  | c :: cs =>
    if p c then
      if inRun then collapseClassRunsA p true cs
      else ' ' :: collapseClassRunsA p true cs
    else c :: collapseClassRunsA p false cs

/-- Replace every maximal run of characters satisfying `p` by one space. -/
def collapseClassRuns (p : Char → Bool) (l : List Char) : List Char :=
  collapseClassRunsA p false l

/-- Emit a completed run of `cnt` copies of `ch`: runs of length ≥ `thr`
are shortened to `keep` copies, shorter runs are kept as they are. -/
def emitRun (ch : Char) (thr keep cnt : Nat) : List Char :=
  if cnt ≥ thr then List.replicate keep ch else List.replicate cnt ch

/-- Replace every maximal run of the character `ch` of length ≥ `thr` by
`keep` copies (models the Go regex replacements `\n{3,}` → two newlines
and two-or-more spaces → one space).  `cnt` is the length of the current
pending run. -/
def capRunsA (ch : Char) (thr keep cnt : Nat) : List Char → List Char
  | [] => emitRun ch thr keep cnt
  | c :: cs =>
    if c = ch then capRunsA ch thr keep (cnt + 1) cs
    else emitRun ch thr keep cnt ++ c :: capRunsA ch thr keep 0 cs

/-- Replace every maximal run of `ch` of length ≥ `thr` by `keep` copies. -/
def capRuns (ch : Char) (thr keep : Nat) (l : List Char) : List Char :=
  capRunsA ch thr keep 0 l

/-- `collapseWhitespace` from the normalizer, step for step:
fold `[\t\f\v ]+` runs to one space, fold ` {2,}` runs to one space,
cap `\n{3,}` runs at two newlines, right-trim every line, and trim the
whole string. -/
def collapseWhitespace (s : String) : String :=
  let s1 := ofChars (collapseClassRuns
    (fun c => c = '\t' || c = '\x0c' || c = '\x0b' || c = '\u00A0') (chars s))
  let s2 := ofChars (capRuns ' ' 2 1 (chars s1))
  let s3 := ofChars (capRuns '\n' 3 2 (chars s2))
  let lines := (splitLines s3).map goTrimRight
  goTrimSpace (goJoin "\n" lines)


/-! ## Bibliography orderer (services/bibliography.go) -/

/-- A numbered source used in an answer (`SourceItem`). -/
structure SourceItem where
  Number : Int
  DOI : String
  PMID : String
  Title : String
  Year : Int
  Journal : String
  Authors : List String
  DocID : String
deriving DecidableEq, Repr

/-- Numeric value of a list of ASCII digits. -/
def natOfDigits (ds : List Char) : Nat :=
  ds.foldl (fun n c => n * 10 + (c.toNat - 48)) 0

/-- Scan for the regex pattern "[(digits)]": every leftmost,
non-overlapping occurrence of a bracketed digit run, returning the digit
values in order of occurrence.  After a failed match attempt at a
bracket the scan resumes one character later; after a successful match
it resumes after the closing bracket.  `fuel` is initialised to the list
length and every step consumes at least one character. -/
def scanBracketNumsF : Nat → List Char → List Nat
  | 0, _ => []
  | _, [] => []
  | fuel + 1, c :: cs =>
    if c = '[' then
      let ds := cs.takeWhile Char.isDigit
      let rest := cs.dropWhile Char.isDigit
      match ds, rest with
      | [], _ => scanBracketNumsF fuel cs
      | _ :: _, ']' :: rest2 => natOfDigits ds :: scanBracketNumsF fuel rest2
      | _ :: _, _ => scanBracketNumsF fuel cs
    else scanBracketNumsF fuel cs

/-- All bracketed digit values occurring in a string, in order. -/
def scanBracketNums (s : String) : List Nat :=
  scanBracketNumsF (chars s).length (chars s)

/-- First-seen deduplication with an explicit `seen` accumulator (the
`seen` maps in `ParseCitationOrder` and `extractInTextCitations`). -/
def dedupSeen {α : Type} [DecidableEq α] (seen : List α) : List α → List α
  | [] => []
  | x :: xs => if x ∈ seen then dedupSeen seen xs else x :: dedupSeen (x :: seen) xs

/-- Keep the first occurrence of every element, in first-seen order. -/
def dedupFirstSeen {α : Type} [DecidableEq α] (l : List α) : List α :=
  dedupSeen [] l

/-- `fmt.Sscanf("%d")` applied to a run of decimal digits: values beyond
the 64-bit signed range make `Sscanf` fail, leaving `n` at zero, and the
caller skips every `n ≤ 0`. -/
def sscanfPositiveInt (v : Nat) : Option Int :=
  if 1 ≤ v ∧ v ≤ 9223372036854775807 then some (Int.ofNat v) else none

/-- `ParseCitationOrder`: the unique bracketed citation numbers in
first-occurrence order, ignoring zero and unparseable (overflowing)
numbers. -/
def ParseCitationOrder (answerText : String) : List Int :=
  dedupFirstSeen ((scanBracketNums answerText).filterMap sscanfPositiveInt)

/-- The `byNum` map of `BuildBibliography`: sources indexed by `Number`,
later entries overwriting earlier ones (Go map insertion order). -/
def byNum (sources : List SourceItem) (n : Int) : Option SourceItem :=
  sources.reverse.find? (fun s => s.Number = n)

/-- The warning text for a gap in the 1..N numbering. -/
def missingWarning (i : Nat) : String :=
  "source number " ++ toString i ++ " missing"

/-- The warning text for a citation with no matching source. -/
def unmatchedWarning (n : Int) : String :=
  "citation [" ++ toString n ++ "] has no matching source"

/-- The cited-part loop of `BuildBibliography`: walk the citation order,
appending the matching source (if any, and not yet seen) and recording a
warning for citations without a matching source. -/
def citedLoop (sources : List SourceItem) :
    List Int → List Int → List SourceItem × List String × List Int
  | _, [] => ([], [], [])
  | seen, n :: rest =>
    match byNum sources n with
    | some s =>
      if n ∈ seen then citedLoop sources seen rest
      else
        let (os, ws, sn) := citedLoop sources (n :: seen) rest
        (s :: os, ws, n :: sn)
    | none =>
      let (os, ws, sn) := citedLoop sources seen rest
      (os, unmatchedWarning n :: ws, sn)

/-- `BuildBibliography`: cited sources in first-citation order, then the
never-cited sources with numbers in 1..N in ascending order; warnings
for numbering gaps and unmatched citations.  The Go code sorts the
collected numbers, but only their count (which equals the number of
sources) is ever used. -/
def BuildBibliography (answerText : String) (sources : List SourceItem) :
    List SourceItem × List String :=
  if sources.isEmpty then ([], ["no sources provided"])
  else
    let n := sources.length
    let gapWarnings := (List.range' 1 n).filterMap
      (fun i => if byNum sources (Int.ofNat i) = none then some (missingWarning i) else none)
    let order := ParseCitationOrder answerText
    if order.isEmpty then
      ((List.range' 1 n).filterMap (fun i => byNum sources (Int.ofNat i)), gapWarnings)
    else
      let (cited, citeWarnings, seen) := citedLoop sources [] order
      let rest := (List.range' 1 n).filterMap
        (fun i =>
          match byNum sources (Int.ofNat i) with
          | some s => if Int.ofNat i ∈ seen then none else some s
          | none => none)
      (cited ++ rest, gapWarnings ++ citeWarnings)


theorem mem_dedupSeen {α : Type} [DecidableEq α] (l : List α) :
    ∀ (seen : List α) (x : α), x ∈ dedupSeen seen l ↔ x ∈ l ∧ x ∉ seen := by
  induction l with
  | nil => intro seen x; simp [dedupSeen]
  | cons y ys ih =>
    intro seen x
    simp only [dedupSeen]
    by_cases hy : y ∈ seen
    · simp only [if_pos hy, ih]
      constructor
      · rintro ⟨hx, hs⟩
        exact ⟨List.mem_cons_of_mem _ hx, hs⟩
      · rintro ⟨hx, hs⟩
        rcases List.mem_cons.mp hx with rfl | hx
        · exact absurd hy hs
        · exact ⟨hx, hs⟩
    · simp only [if_neg hy, List.mem_cons, ih]
      constructor
      · rintro (rfl | ⟨hx, hs⟩)
        · exact ⟨Or.inl rfl, hy⟩
        · constructor
          · exact Or.inr hx
          · intro hc; exact hs (Or.inr hc)
      · rintro ⟨rfl | hx, hs⟩
        · exact Or.inl rfl
        · by_cases hxy : x = y
          · exact Or.inl hxy
          · refine Or.inr ⟨hx, ?_⟩
            intro hc
            rcases hc with h | h
            · exact hxy h
            · exact hs h

theorem nodup_dedupSeen {α : Type} [DecidableEq α] (l : List α) :
    ∀ seen : List α, (dedupSeen seen l).Nodup := by
  induction l with
  | nil => intro seen; simp [dedupSeen]
  | cons y ys ih =>
    intro seen
    simp only [dedupSeen]
    by_cases hy : y ∈ seen
    · simpa [hy] using ih seen
    · simp only [if_neg hy, List.nodup_cons]
      refine ⟨?_, ih _⟩
      intro hc
      exact ((mem_dedupSeen ys _ y).mp hc).2 (List.mem_cons_self _ _)

theorem nodup_ParseCitationOrder (a : String) : (ParseCitationOrder a).Nodup :=
  nodup_dedupSeen _ []

theorem byNum_eq_find? (sources : List SourceItem)
    (h : (sources.map (·.Number)).Nodup) (n : Int) :
    byNum sources n = sources.find? (fun s => s.Number = n) := by
  induction sources with
  | nil => rfl
  | cons s t ih =>
    simp only [List.map_cons, List.nodup_cons] at h
    obtain ⟨hs, ht⟩ := h
    unfold byNum
    simp only [List.reverse_cons, List.find?_append]
    by_cases hn : s.Number = n
    · have hnone : t.reverse.find? (fun x => x.Number = n) = none := by
        apply List.find?_eq_none.mpr
        intro x hx
        simp only [decide_eq_true_eq]
        intro hc
        apply hs
        rw [List.mem_map]
        refine ⟨x, List.mem_reverse.mp hx, ?_⟩
        rw [hc, hn]
      rw [hnone]
      simp [List.find?, hn]
    · have := ih ht
      unfold byNum at this
      rw [this]
      cases hf : t.find? (fun s => s.Number = n) with
      | none => simp [List.find?, hn, hf]
      | some x => simp [List.find?, hn, hf]

theorem citedLoop_eq (sources : List SourceItem) (order : List Int) :
    ∀ seen : List Int, order.Nodup → (∀ n ∈ order, n ∉ seen) →
    citedLoop sources seen order =
      (order.filterMap (byNum sources),
       order.filterMap (fun n => if (byNum sources n).isSome then none
         else some (unmatchedWarning n)),
       order.filter (fun n => (byNum sources n).isSome)) := by
  induction order with
  | nil => intro seen _ _; rfl
  | cons n rest ih =>
    intro seen hnd hdisj
    have hnd' : rest.Nodup := (List.nodup_cons.mp hnd).2
    have hn_rest : n ∉ rest := (List.nodup_cons.mp hnd).1
    simp only [citedLoop]
    cases hb : byNum sources n with
    | some s =>
      have hns : n ∉ seen := hdisj n (List.mem_cons_self _ _)
      dsimp only
      rw [if_neg hns]
      have hdisj' : ∀ m ∈ rest, m ∉ (n :: seen) := by
        intro m hm hc
        rcases List.mem_cons.mp hc with h | h
        · exact hn_rest (h ▸ hm)
        · exact hdisj m (List.mem_cons_of_mem _ hm) h
      rw [ih (n :: seen) hnd' hdisj']
      simp [List.filterMap_cons, List.filter_cons, hb]
    | none =>
      have hdisj' : ∀ m ∈ rest, m ∉ seen := fun m hm => hdisj m (List.mem_cons_of_mem _ hm)
      dsimp only
      rw [ih seen hnd' hdisj']
      simp [List.filterMap_cons, List.filter_cons, hb]

/-- Spec-side: the cited sources in first-occurrence order of the
distinct bracketed citation numbers. -/
def citedPart (a : String) (srcs : List SourceItem) : List SourceItem :=
  (ParseCitationOrder a).filterMap (fun n => srcs.find? (fun s => s.Number = n))

/-- Spec-side: the never-cited catalog entries with numbers in 1..N, in
ascending numeric order. -/
def uncitedPart (a : String) (srcs : List SourceItem) : List SourceItem :=
  (List.range' 1 srcs.length).filterMap
    (fun i => if (Int.ofNat i) ∈ ParseCitationOrder a then none
      else srcs.find? (fun s => s.Number = Int.ofNat i))

/-- Spec-side: warnings for gaps in the 1..N numbering. -/
def gapWarningsSpec (srcs : List SourceItem) : List String :=
  (List.range' 1 srcs.length).filterMap
    (fun i => if srcs.find? (fun s => s.Number = Int.ofNat i) = none
      then some (missingWarning i) else none)

/-- Spec-side: warnings for cited numbers with no catalog entry. -/
def unmatchedWarningsSpec (a : String) (srcs : List SourceItem) : List String :=
  (ParseCitationOrder a).filterMap
    (fun n => if srcs.find? (fun s => s.Number = n) = none
      then some (unmatchedWarning n) else none)

theorem BuildBibliography_characterized (a : String) (srcs : List SourceItem)
    (hne : srcs ≠ []) (h : (srcs.map (·.Number)).Nodup) :
    BuildBibliography a srcs =
      (citedPart a srcs ++ uncitedPart a srcs,
       gapWarningsSpec srcs ++ unmatchedWarningsSpec a srcs) := by
  have hfind : ∀ n : Int, byNum srcs n = srcs.find? (fun s => s.Number = n) :=
    byNum_eq_find? srcs h
  unfold BuildBibliography
  rw [if_neg (by simpa using hne)]
  by_cases horder : (ParseCitationOrder a).isEmpty
  · rw [if_pos horder]
    have hempty : ParseCitationOrder a = [] := List.isEmpty_iff.mp horder
    unfold citedPart uncitedPart gapWarningsSpec unmatchedWarningsSpec
    rw [hempty]
    simp only [List.filterMap_nil, List.nil_append, List.append_nil, List.not_mem_nil,
      if_false, Prod.mk.injEq]
    constructor
    · exact List.filterMap_congr (fun i _ => by rw [hfind])
    · exact List.filterMap_congr (fun i _ => by rw [hfind])
  · rw [if_neg horder]
    have hnd : (ParseCitationOrder a).Nodup := nodup_ParseCitationOrder a
    rw [citedLoop_eq srcs (ParseCitationOrder a) [] hnd
      (by intro n _ hc; exact absurd hc (List.not_mem_nil n))]
    dsimp only
    unfold citedPart uncitedPart gapWarningsSpec unmatchedWarningsSpec
    simp only [Prod.mk.injEq]
    have hcited : List.filterMap (byNum srcs) (ParseCitationOrder a) =
        List.filterMap (fun n => srcs.find? (fun s => s.Number = n)) (ParseCitationOrder a) :=
      List.filterMap_congr (fun n _ => by rw [hfind])
    have hrest : List.filterMap
        (fun i =>
          match byNum srcs (Int.ofNat i) with
          | some s =>
            if Int.ofNat i ∈ List.filter (fun n => (byNum srcs n).isSome)
              (ParseCitationOrder a) then none else some s
          | none => none)
        (List.range' 1 srcs.length) =
        List.filterMap
          (fun i => if (Int.ofNat i) ∈ ParseCitationOrder a then none
            else srcs.find? (fun s => s.Number = Int.ofNat i))
          (List.range' 1 srcs.length) := by
      apply List.filterMap_congr
      intro i _
      rw [hfind]
      cases hb : srcs.find? (fun s => s.Number = Int.ofNat i) with
      | some s =>
        dsimp only
        by_cases hmem : (Int.ofNat i) ∈ ParseCitationOrder a
        · rw [if_pos, if_pos hmem]
          rw [List.mem_filter]
          exact ⟨hmem, by rw [hfind, hb]; rfl⟩
        · rw [if_neg, if_neg hmem]
          rw [List.mem_filter]
          rintro ⟨hc, _⟩
          exact hmem hc
      | none =>
        dsimp only
        by_cases hmem : (Int.ofNat i) ∈ ParseCitationOrder a <;> simp [hmem]
    have hgap : List.filterMap
        (fun i => if byNum srcs (Int.ofNat i) = none then some (missingWarning i) else none)
        (List.range' 1 srcs.length) =
        List.filterMap
          (fun i => if srcs.find? (fun s => s.Number = Int.ofNat i) = none
            then some (missingWarning i) else none)
          (List.range' 1 srcs.length) :=
      List.filterMap_congr (fun i _ => by rw [hfind])
    have hunm : List.filterMap
        (fun n => if (byNum srcs n).isSome = true then none else some (unmatchedWarning n))
        (ParseCitationOrder a) =
        List.filterMap
          (fun n => if srcs.find? (fun s => s.Number = n) = none
            then some (unmatchedWarning n) else none)
          (ParseCitationOrder a) := by
      apply List.filterMap_congr
      intro n _
      rw [hfind]
      cases hb : srcs.find? (fun s => s.Number = n) <;> simp
    exact ⟨by rw [hcited, hrest], by rw [hgap, hunm]⟩

/-- A concrete source numbered 1. -/
def bibSrc1 : SourceItem := ⟨1, "", "", "A", 2020, "", [], ""⟩

/-- A concrete source numbered 2. -/
def bibSrc2 : SourceItem := ⟨2, "", "", "B", 2021, "", [], ""⟩

/-- A concrete source numbered 3. -/
def bibSrc3 : SourceItem := ⟨3, "", "", "C", 2022, "", [], ""⟩

/-- A concrete source numbered 5. -/
def bibSrc5 : SourceItem := ⟨5, "", "", "E", 2024, "", [], ""⟩

/-- Claim C4, counterexample: the claim says every catalog entry appears
exactly once in the ordered output, but the never-cited-append loop of
`BuildBibliography` only scans numbers 1..len(sources), so a source
numbered 5 in a two-source catalog is dropped entirely when it is not
cited. -/
theorem buildBibliography_claim_counterexample :
    bibSrc5 ∈ [bibSrc1, bibSrc5] ∧
    (([bibSrc1, bibSrc5].map (·.Number)).Nodup) ∧
    bibSrc5 ∉ (BuildBibliography "answer cites [1] only" [bibSrc1, bibSrc5]).1 := by
  decide

/-- Claim C4 (amended): for every answer text and every non-empty source
catalog with distinct numbers, `BuildBibliography` returns the cited
sources in first-occurrence order of the distinct bracketed citation
numbers, followed by the never-cited catalog entries whose numbers lie
in 1..N (N the catalog size) in ascending numeric order — entries
numbered outside 1..N are dropped when never cited; cited numbers with
no catalog entry produce a warning and do not abort, and gaps in the
1..N numbering are reported as warnings. -/
theorem buildBibliography_spec (a : String) (srcs : List SourceItem)
    (hne : srcs ≠ []) (h : (srcs.map (·.Number)).Nodup) :
    BuildBibliography a srcs =
      (citedPart a srcs ++ uncitedPart a srcs,
       gapWarningsSpec srcs ++ unmatchedWarningsSpec a srcs) :=
  BuildBibliography_characterized a srcs hne h

/-- Claim C4, witness: the characterization applied to the concrete
catalog 1..3 and the answer text citing [2] then [1] then [2] again. -/
theorem buildBibliography_spec_witness :
    BuildBibliography "x [2] y [1] z [2]" [bibSrc1, bibSrc2, bibSrc3] =
      (citedPart "x [2] y [1] z [2]" [bibSrc1, bibSrc2, bibSrc3] ++
        uncitedPart "x [2] y [1] z [2]" [bibSrc1, bibSrc2, bibSrc3],
       gapWarningsSpec [bibSrc1, bibSrc2, bibSrc3] ++
        unmatchedWarningsSpec "x [2] y [1] z [2]" [bibSrc1, bibSrc2, bibSrc3]) ∧
    (BuildBibliography "x [2] y [1] z [2]" [bibSrc1, bibSrc2, bibSrc3]).1 =
      [bibSrc2, bibSrc1, bibSrc3] :=
  ⟨buildBibliography_spec _ _ (by decide) (by decide), by decide⟩

/-- Claim C7: the whitespace-collapsing step is not idempotent.  Lines
consisting only of spaces are right-trimmed to empty lines only after
the newline-run capping has already run, so a first pass can produce a
three-newline run that a second pass then reduces. -/
theorem collapseWhitespace_not_idempotent :
    collapseWhitespace "a\n \n \nb" = "a\n\n\nb" ∧
    collapseWhitespace (collapseWhitespace "a\n \n \nb") = "a\n\nb" ∧
    collapseWhitespace (collapseWhitespace "a\n \n \nb") ≠
      collapseWhitespace "a\n \n \nb" := by
  decide



/-! ## Sentence splitting (services/citations.go, splitIntoSentences) -/

/-- The Go regexp Perl class for whitespace: tab, newline, formfeed,
carriage return and space. -/
def goRegexSpace (c : Char) : Bool :=
  c = '\t' || c = '\n' || c = '\x0c' || c = '\r' || c = ' '

/-- ASCII uppercase letter. -/
def isUpperAscii (c : Char) : Bool := 'A' ≤ c && c ≤ 'Z'

/-- ASCII lowercase letter. -/
def isLowerAscii (c : Char) : Bool := 'a' ≤ c && c ≤ 'z'

/-- ASCII letter. -/
def isAsciiLetter (c : Char) : Bool := isUpperAscii c || isLowerAscii c

/-- ASCII digit. -/
def isDigitAscii (c : Char) : Bool := '0' ≤ c && c ≤ '9'

/-- The Go regexp word character class: ASCII letters, digits and the
underscore. -/
def isWordChar (c : Char) : Bool := isAsciiLetter c || isDigitAscii c || c = '_'

/-- Go `strings.ToLower`, which this development needs only on ASCII
data; non-ASCII characters (where Go would apply the full Unicode case
mapping) are left unchanged. -/
def goToLower (s : String) : String :=
  ofChars ((chars s).map (fun c =>
    if isUpperAscii c then Char.ofNat (c.toNat + 32) else c))

/-- The sentence-boundary scanner: the Go code splits at every leftmost,
non-overlapping match of a punctuation character, one or more regex
whitespace characters, and an ASCII capital letter, re-appending the
punctuation to the finished part.  The matched whitespace and capital
letter are consumed by the match and do not reappear in any part (this
is what the Go `regexp.Split` + re-append code does).  `acc` holds the
current part reversed; `fuel` is initialised to the list length and
every step consumes at least one character. -/
def splitSentencesScan : Nat → List Char → List Char → List (List Char)
  | 0, acc, l => [acc.reverse ++ l]
  | _, acc, [] => [acc.reverse]
  | fuel + 1, acc, c :: cs =>
    if c = '.' || c = '!' || c = '?' then
      let ws := cs.takeWhile goRegexSpace
      let rest := cs.dropWhile goRegexSpace
      match ws, rest with
      | _ :: _, d :: rest2 =>
        if isUpperAscii d then
          (acc.reverse ++ [c]) :: splitSentencesScan fuel [] rest2
        else c :: acc |> fun acc2 => splitSentencesScan fuel acc2 cs
      | _, _ => splitSentencesScan fuel (c :: acc) cs
    else splitSentencesScan fuel (c :: acc) cs

/-- The protected abbreviation list of `splitIntoSentences`. -/
def abbreviations : List String :=
  ["et al.", "i.e.", "e.g.", "cf.", "vs.", "etc.", "Dr.", "Prof.", "Fig.", "Tab."]

/-- The placeholder substituted for the `i`-th abbreviation. -/
def placeholderFor (i : Nat) : String := "__ABBR_" ++ toString i ++ "__"

/-- Substitute placeholders for all protected abbreviations, in list
order. -/
def protectAbbrs (s : String) : String :=
  abbreviations.enum.foldl (fun acc p => goReplaceAll acc p.2 (placeholderFor p.1)) s

/-- Restore all protected abbreviations, in list order. -/
def restoreAbbrs (s : String) : String :=
  abbreviations.enum.foldl (fun acc p => goReplaceAll acc (placeholderFor p.1) p.2) s

/-- The candidate sentences of `splitIntoSentences` before the length
filter: protect abbreviations, split at sentence boundaries, restore
abbreviations, and trim each part. -/
def splitIntoSentencesRaw (text : String) : List String :=
  let prot := protectAbbrs text
  let parts := splitSentencesScan (chars prot).length [] (chars prot)
  parts.map (fun p => goTrimSpace (restoreAbbrs (ofChars p)))

/-- `splitIntoSentences`: candidates whose trimmed byte length exceeds
10 are kept, all others are discarded. -/
def splitIntoSentences (text : String) : List String :=
  (splitIntoSentencesRaw text).filter (fun s => 10 < goLen (goTrimSpace s))


/-! ## Keyword and concept extraction (services/citations.go) -/

/-- Maximal runs of word characters, with the current run accumulated
in reverse.  These are exactly the positions at which word-boundary
anchored patterns can match. -/
def wordRunsAux (cur : List Char) : List Char → List (List Char)
  | [] => if cur.isEmpty then [] else [cur.reverse]
  | c :: cs =>
    if isWordChar c then wordRunsAux (c :: cur) cs
    else if cur.isEmpty then wordRunsAux [] cs
    else cur.reverse :: wordRunsAux [] cs

/-- Maximal runs of word characters, in order of occurrence. -/
def wordRuns (l : List Char) : List (List Char) := wordRunsAux [] l

/-- Matches of the keyword tokenizer (word-boundary-anchored ASCII
letter runs): the maximal word-character runs consisting entirely of
letters. -/
def letterTokens (s : String) : List String :=
  ((wordRuns (chars s)).filter (fun t => t.all isAsciiLetter)).map ofChars

/-- The stop-word list of `extractKeywords`. -/
def stopwords : List String :=
  ["that", "this", "with", "from", "they",
   "were", "been", "have", "their", "said",
   "each", "which", "them", "than", "many",
   "some", "these", "would", "there", "what",
   "und", "eine", "einer", "eines", "dass",
   "sich", "sind", "wird", "wurde", "wurden",
   "werden", "kann", "können", "durch", "über"]

/-- Go `strings.HasSuffix` on strings. -/
def goHasSuffix (s pat : String) : Bool := goHasSuffixL (chars pat) (chars s)

/-- Go `strings.HasPrefix` on strings. -/
def goHas (s pat : String) : Bool := goHasPrefixL (chars pat) (chars s)

/-- `isScientificTerm`: scientific suffix, scientific word start, or an
ASCII capital strictly after the second character (the Go loop over
`word[1:]` skips its first element).  The function is only ever applied
to lowercased words, so the capital check never fires in the pipeline,
but it is kept as written. -/
def isScientificTerm (w : String) : Bool :=
  (["tion", "ism", "ment", "ness", "ity", "ogy", "ics", "ine", "ase", "ose"].any
    (fun suf => goHasSuffix w suf)) ||
  (["anti", "pro", "pre", "post", "inter", "intra", "extra", "trans"].any
    (fun pre => goHas w pre)) ||
  ((chars w).drop 2).any isUpperAscii

/-- `extractKeywords`: lowercased letter tokens longer than four bytes
that are not stop words and look like scientific terms, deduplicated in
first-seen order. -/
def extractKeywords (sentence : String) : List String :=
  dedupFirstSeen ((letterTokens sentence).filterMap (fun w =>
    let cleaned := goToLower (goTrimSpace w)
    if 4 < goLen cleaned && !(stopwords.contains cleaned) && isScientificTerm cleaned
    then some cleaned else none))

/-- Concept pattern 1: a capitalized word whose remainder is lowercase
and ends in a biochemical suffix preceded by at least one further
lowercase letter (matches of the anchored capitalized-biochemical
pattern are exactly such whole tokens). -/
def isBioSuffixToken : List Char → Bool
  | [] => false
  | c :: rest =>
    isUpperAscii c && rest.all isLowerAscii &&
    (["in", "mine", "cin", "ide", "ase", "ose"].any (fun suf =>
      goHasSuffixL (chars suf) rest && (chars suf).length < rest.length))

/-- Concept pattern 2: an all-capitals token of length at least two. -/
def isAllCapsToken (t : List Char) : Bool :=
  t.all isUpperAscii && 2 ≤ t.length

/-- Concept pattern 3: optional digits, one ASCII capital, optional
digits. -/
def isUnitToken (t : List Char) : Bool :=
  let rest := t.dropWhile isDigitAscii
  match rest with
  | c :: ds => isUpperAscii c && ds.all isDigitAscii
  | [] => false

/-- Concept pattern 4 scanner: occurrences of the word-bounded literal
`anti-` followed by one or more word characters; `prevWord` tracks
whether the previous character was a word character (for the left word
boundary), and the scan resumes after each match. -/
def scanAntiAux : Nat → Bool → List Char → List (List Char)
  | 0, _, _ => []
  | _, _, [] => []
  | fuel + 1, prevWord, c :: cs =>
    if !prevWord && ['a', 'n', 't', 'i', '-'].isPrefixOf (c :: cs) &&
        (match (c :: cs).drop 5 with
         | d :: _ => isWordChar d
         | [] => false) then
      let tail := (c :: cs).drop 5
      let run := tail.takeWhile isWordChar
      let rest := tail.dropWhile isWordChar
      (['a', 'n', 't', 'i', '-'] ++ run) :: scanAntiAux fuel true rest
    else scanAntiAux fuel (isWordChar c) cs

/-- Matches of the `anti-` compound pattern in order of occurrence. -/
def scanAnti (l : List Char) : List (List Char) := scanAntiAux l.length false l

/-- Concept patterns 5 and 6: word tokens ending in the given literal
with at least one further word character before it. -/
def isCompoundToken (suffix : String) (t : List Char) : Bool :=
  goHasSuffixL (chars suffix) t && (chars suffix).length < t.length

/-- The fixed medical-term vocabulary of `extractConcepts`. -/
def medicalTerms : List String :=
  ["cancer", "tumor", "inflammation", "oxidative", "therapeutic", "clinical",
   "efficacy", "bioavailability", "metabolism", "pharmacokinetic", "antioxidant",
   "neuroprotective", "cardioprotective", "hepatoprotective", "chemopreventive"]

/-- `extractConcepts`: matches of the six concept patterns over the
original sentence (lowercased afterwards), then matches of the
medical-term vocabulary over the lowercased sentence, deduplicated in
first-seen order. -/
def extractConcepts (sentence : String) : List String :=
  let toks := wordRuns (chars sentence)
  let p1 := (toks.filter isBioSuffixToken).map (fun t => goToLower (ofChars t))
  let p2 := (toks.filter isAllCapsToken).map (fun t => goToLower (ofChars t))
  let p3 := (toks.filter isUnitToken).map (fun t => goToLower (ofChars t))
  let p4 := (scanAnti (chars sentence)).map (fun t => goToLower (ofChars t))
  let p5 := (toks.filter (isCompoundToken "therapy")).map (fun t => goToLower (ofChars t))
  let p6 := (toks.filter (isCompoundToken "disease")).map (fun t => goToLower (ofChars t))
  let med := ((wordRuns (chars (goToLower sentence))).map ofChars).filter
    (fun w => medicalTerms.contains w)
  dedupFirstSeen (p1 ++ p2 ++ p3 ++ p4 ++ p5 ++ p6 ++ med)

/-! ## Similarity scoring and citation injection (services/citations.go) -/

/-- A sentence-citation mapping (`CitationMapping`). -/
structure CitationMapping where
  OriginalSentence : String
  Citations : List String
  Keywords : List String
  Concepts : List String
  SentenceID : String
deriving DecidableEq, Repr

/-- A model of the `float64` values arising in similarity scoring: a
finite value represented as a fraction `n / d` (the construction keeps
every denominator positive), NaN, or a signed infinity.  Every
arithmetic operation rounds its exact result to the nearest IEEE-754
binary64 value (ties to even), so finite results are always exactly
representable doubles; the binary exponent is not clamped, which
agrees with `float64` for every magnitude this program can produce (no
overflow and no subnormals arise from overlap ratios of slice lengths
weighted by 0.3 and 0.7).  Fractions are compared by
cross-multiplication, which on representable values coincides with the
hardware comparison, so the representation never needs normalising. -/
inductive GoFloat where
  | fin (n : Int) (d : Nat)
  | nan
  | pinf
  | ninf
deriving DecidableEq, Repr

/-- The rational value of a finite `GoFloat`. -/
def GoFloat.toRat : GoFloat → Option ℚ
  | .fin n d => some ((n : ℚ) / (d : ℚ))
  | _ => none

/-- Every finite value produced by the scoring code has a positive
denominator. -/
def GoFloat.WF : GoFloat → Prop
  | .fin _ d => 0 < d
  | _ => True

/-- Number of binary digits of a natural number, recursing on a fuel
argument that bounds the number of halving steps.  Written with
`Nat.rec` directly so that evaluation peels only one fuel layer per
halving step instead of materialising the whole course-of-values
structure of the fuel. -/
def bitlenAux (fuel : Nat) : Nat → Nat :=
  @Nat.rec (fun _ => Nat → Nat) (fun _ => 0)
    (fun _ ih n => if n = 0 then 0 else ih (n / 2) + 1) fuel

/-- Number of binary digits of a natural number (0 for 0). -/
def bitlen (n : Nat) : Nat := bitlenAux n n

/-- Round the positive rational `num / d` (with `num, d ≥ 1`) to the
nearest binary64 value, ties to even: the fraction is scaled by a
power of two so that the scaled quotient has 53 or 54 significant
bits, the quotient is rounded by its division remainder (and, in the
54-bit case, by the dropped low bit with the remainder as sticky bit),
and the result is returned as a significand with a binary exponent. -/
def roundPos (num d : Nat) : Nat × Int :=
  let bn := bitlen num
  let bd := bitlen d
  if bn ≤ 53 + bd then
    let t := 53 + bd - bn
    let q := num * 2 ^ t / d
    let r := num * 2 ^ t % d
    if q < 2 ^ 53 then
      (if d < 2 * r ∨ (2 * r = d ∧ q % 2 = 1) then q + 1 else q, -(t : Int))
    else
      (if q % 2 = 1 ∧ (r ≠ 0 ∨ q / 2 % 2 = 1) then q / 2 + 1 else q / 2,
        1 - (t : Int))
  else
    let t := bn - (53 + bd)
    let b := d * 2 ^ t
    let q := num / b
    let r := num % b
    if q < 2 ^ 53 then
      (if b < 2 * r ∨ (2 * r = b ∧ q % 2 = 1) then q + 1 else q, (t : Int))
    else
      (if q % 2 = 1 ∧ (r ≠ 0 ∨ q / 2 % 2 = 1) then q / 2 + 1 else q / 2,
        (t : Int) + 1)

/-- Attach a sign to a natural magnitude. -/
def signInt (sign : Bool) (m : Nat) : Int :=
  if sign then -(m : Int) else (m : Int)

/-- Pack a rounded magnitude `m · 2^e` and a sign into a `GoFloat`
fraction with a power-of-two denominator (or a power-of-two factor in
the numerator for non-negative exponents). -/
def packFin (sign : Bool) (me : Nat × Int) : GoFloat :=
  if 0 ≤ me.2 then .fin (signInt sign me.1 * 2 ^ me.2.toNat) 1
  else .fin (signInt sign me.1) (2 ^ (-me.2).toNat)

/-- Round an exact fraction to the nearest binary64 value (ties to
even); NaN and the infinities are fixed points. -/
def roundF : GoFloat → GoFloat
  | .fin n d =>
    if d = 0 then .nan
    else if n = 0 then .fin 0 1
    else packFin (decide (n < 0)) (roundPos n.natAbs d)
  | x => x

/-- `float64` division of two non-negative counts,
`float64(n) / float64(d)` in Go: division by zero gives NaN for a zero
numerator and +Inf otherwise, and otherwise the quotient is correctly
rounded.  (The `int → float64` conversions are exact for every count
below 2^53, which covers every Go slice length arising here.) -/
def divCounts (n d : Nat) : GoFloat :=
  if d = 0 then (if n = 0 then .nan else .pinf) else roundF (.fin n d)

/-- `float64` multiplication, correctly rounded on finite operands. -/
def mulF : GoFloat → GoFloat → GoFloat
  | .nan, _ => .nan
  | _, .nan => .nan
  | .fin n1 d1, .fin n2 d2 => roundF (.fin (n1 * n2) (d1 * d2))
  | .pinf, .pinf => .pinf
  | .pinf, .ninf => .ninf
  | .ninf, .pinf => .ninf
  | .ninf, .ninf => .pinf
  | .pinf, .fin n _ => if n = 0 then .nan else if 0 < n then .pinf else .ninf
  | .fin n _, .pinf => if n = 0 then .nan else if 0 < n then .pinf else .ninf
  | .ninf, .fin n _ => if n = 0 then .nan else if 0 < n then .ninf else .pinf
  | .fin n _, .ninf => if n = 0 then .nan else if 0 < n then .ninf else .pinf

/-- `float64` addition, correctly rounded on finite operands. -/
def addF : GoFloat → GoFloat → GoFloat
  | .nan, _ => .nan
  | _, .nan => .nan
  | .fin n1 d1, .fin n2 d2 => roundF (.fin (n1 * d2 + n2 * d1) (d1 * d2))
  | .pinf, .ninf => .nan
  | .ninf, .pinf => .nan
  | .pinf, _ => .pinf
  | _, .pinf => .pinf
  | .ninf, _ => .ninf
  | _, .ninf => .ninf

/-- `float64` strict greater-than; any comparison with NaN is false,
and finite fractions are compared by cross-multiplication (exact, and
therefore identical to the hardware comparison on the representable
values the rounded operations produce). -/
def gtF : GoFloat → GoFloat → Bool
  | .nan, _ => false
  | _, .nan => false
  | .fin n1 d1, .fin n2 d2 => n2 * (d1 : Int) < n1 * (d2 : Int)
  | .pinf, .pinf => false
  | .pinf, _ => true
  | _, .pinf => false
  | .fin _ _, .ninf => true
  | .ninf, _ => false

/-- `countOverlap`: the number of elements of the second list (with
multiplicity) that occur in the first. -/
def countOverlap (l1 l2 : List String) : Nat :=
  (l2.filter (fun x => l1.contains x)).length

/-- The binary64 value nearest the literal `0.3`:
`5404319552844595 · 2⁻⁵⁴`. -/
def c03 : GoFloat := .fin 5404319552844595 18014398509481984

/-- The binary64 value nearest the literal `0.7`:
`3152519739159347 · 2⁻⁵²`. -/
def c07 : GoFloat := .fin 3152519739159347 4503599627370496

/-- `calculateSimilarityScore`: zero for a mapping with empty keyword
and concept lists, otherwise the `float64` evaluation of
`0.3*keywordScore + 0.7*conceptScore` over the keyword and concept
overlap ratios, with every operation correctly rounded and the
literals 0.3 and 0.7 taken as their nearest binary64 values. -/
def calculateSimilarityScore (keywords1 concepts1 : List String)
    (m : CitationMapping) : GoFloat :=
  if m.Keywords.isEmpty && m.Concepts.isEmpty then .fin 0 1
  else
    let keywordScore := divCounts (countOverlap keywords1 m.Keywords)
      (max keywords1.length m.Keywords.length)
    let conceptScore := divCounts (countOverlap concepts1 m.Concepts)
      (max concepts1.length m.Concepts.length)
    addF (mulF c03 keywordScore) (mulF c07 conceptScore)

/-- The acceptance threshold of `findBestMapping`: the binary64 value
nearest the literal `0.6`, `5404319552844595 · 2⁻⁵³`. -/
def scoreThreshold : GoFloat := .fin 5404319552844595 9007199254740992

/-- The selection loop of `findBestMapping`, carrying the current best
mapping and best score (initially `none` and 0.0). -/
def findBestLoop (kw cs : List String) :
    Option CitationMapping × GoFloat → List CitationMapping →
    Option CitationMapping × GoFloat
  | st, [] => st
  | (best, bestScore), m :: rest =>
    let score := calculateSimilarityScore kw cs m
    if gtF score bestScore && gtF score scoreThreshold then
      findBestLoop kw cs (some m, score) rest
    else findBestLoop kw cs (best, bestScore) rest

/-- `findBestMapping`. -/
def findBestMapping (sentence : String) (mappings : List CitationMapping) :
    Option CitationMapping :=
  if mappings.isEmpty then none
  else (findBestLoop (extractKeywords sentence) (extractConcepts sentence)
    (none, .fin 0 1) mappings).1

/-- `addCitationsToSentence`: trim the sentence, strip one trailing
period, append the citations joined by ", " after a space, and close
with a period; an empty citation list leaves the sentence untouched. -/
def addCitationsToSentence (sentence : String) (citations : List String) : String :=
  if citations.isEmpty then sentence
  else goTrimSuffix (goTrimSpace sentence) "." ++ " " ++ goJoin ", " citations ++ "."

/-- The per-sentence body of the injection loop: select the best
mapping and append at most its first three citations. -/
def enhanceSentence (mappings : List CitationMapping) (sentence : String) : String :=
  match findBestMapping sentence mappings with
  | some m => addCitationsToSentence sentence
      (if 3 < m.Citations.length then m.Citations.take 3 else m.Citations)
  | none => sentence

/-- `InjectCitations`: with no mappings the input is returned as is;
otherwise every sentence is enhanced and the results are joined with
single spaces.  The Go function returns a nil error on every path. -/
def InjectCitations (simplifiedText : String) (mappings : List CitationMapping) :
    Except String String :=
  if mappings.isEmpty then .ok simplifiedText
  else .ok (goJoin " " ((splitIntoSentences simplifiedText).map
    (enhanceSentence mappings)))



/-- Claim C8: `InjectCitations` called with an empty mapping list
returns the input text exactly unchanged and reports no error. -/
theorem injectCitations_empty_mappings (s : String) :
    InjectCitations s [] = Except.ok s := rfl

/-- Claim C9 (amended): the sentence splitter keeps exactly the
candidate sentences whose trimmed byte length is strictly greater than
10, i.e. at least 11; candidates of trimmed length exactly 10 are
discarded. -/
theorem splitIntoSentences_length_filter (t : String) :
    splitIntoSentences t =
      (splitIntoSentencesRaw t).filter (fun s => 10 < goLen (goTrimSpace s)) ∧
    (∀ s ∈ splitIntoSentences t, 11 ≤ goLen (goTrimSpace s)) ∧
    (∀ s ∈ splitIntoSentencesRaw t, 11 ≤ goLen (goTrimSpace s) →
      s ∈ splitIntoSentences t) := by
  refine ⟨rfl, ?_, ?_⟩
  · intro s hs
    have h := (List.mem_filter.mp hs).2
    simp only [decide_eq_true_eq] at h
    omega
  · intro s hs h
    refine List.mem_filter.mpr ⟨hs, ?_⟩
    simp only [decide_eq_true_eq]
    omega

/-- Claim C9, counterexample: a candidate sentence of trimmed length
exactly 10 is discarded, contradicting the claim that every candidate
of trimmed length at least 10 is kept. -/
theorem splitIntoSentences_boundary_counterexample :
    "Abcdefghij" ∈ splitIntoSentencesRaw "Abcdefghij" ∧
    goLen (goTrimSpace "Abcdefghij") = 10 ∧
    splitIntoSentences "Abcdefghij" = [] := by decide

/-- Claim C9, witness: a concrete sentence of trimmed length at least
11 that the splitter keeps. -/
theorem splitIntoSentences_length_filter_witness :
    "Curcumin is great." ∈ splitIntoSentences "Curcumin is great. It is yellow." ∧
    11 ≤ goLen (goTrimSpace "Curcumin is great.") :=
  ⟨by decide, (splitIntoSentences_length_filter "Curcumin is great. It is yellow.").2.1
    "Curcumin is great." (by decide)⟩

/-- Claim C6: whenever a mapping with a non-empty citation list is
selected for a sentence, the enhanced sentence is the trimmed sentence
with one trailing period stripped, a space, at most the first three
citations in original order joined by ", ", and exactly one closing
period. -/
theorem injectCitations_caps_citations (s : String) (ms : List CitationMapping)
    (m : CitationMapping) (hsel : findBestMapping s ms = some m)
    (hc : m.Citations ≠ []) :
    enhanceSentence ms s =
      goTrimSuffix (goTrimSpace s) "." ++ " " ++
        goJoin ", " (m.Citations.take 3) ++ "." := by
  unfold enhanceSentence
  rw [hsel]
  dsimp only
  have htake : (if 3 < m.Citations.length then m.Citations.take 3 else m.Citations) =
      m.Citations.take 3 := by
    split
    · rfl
    · exact (List.take_of_length_le (by omega)).symm
  rw [htake]
  unfold addCitationsToSentence
  rw [if_neg]
  intro hemp
  cases hcit : m.Citations with
  | nil => exact hc hcit
  | cons a l => rw [hcit] at hemp; simp [List.take] at hemp



/-- Concrete mapping used in witnesses. -/
def mInfl : CitationMapping :=
  ⟨"Original inflammation sentence.", ["[1]", "[2]", "[3]", "[4]", "[5]"],
   ["inflammation"], ["inflammation"], "id0"⟩

/-- Concrete low-overlap mapping used in witnesses. -/
def mWeak : CitationMapping :=
  ⟨"Unrelated sentence.", ["[9]"], ["unrelatedterm"], ["unrelated"], "idw"⟩

/-- Claim C6, witness: a selected mapping carrying five citations
contributes exactly its first three. -/
theorem injectCitations_caps_citations_witness :
    findBestMapping "Reducing inflammation." [mInfl] = some mInfl ∧
    mInfl.Citations ≠ [] ∧
    enhanceSentence [mInfl] "Reducing inflammation." =
      goTrimSuffix (goTrimSpace "Reducing inflammation.") "." ++ " " ++
        goJoin ", " (mInfl.Citations.take 3) ++ "." :=
  ⟨by decide, by decide,
   injectCitations_caps_citations "Reducing inflammation." [mInfl] mInfl
     (by decide) (by decide)⟩

theorem gtF_irrefl (a : GoFloat) : gtF a a = false := by
  cases a <;> simp [gtF]

theorem gtF_asymm {a b : GoFloat} (h : gtF a b = true) : gtF b a = false := by
  cases a <;> cases b <;> simp_all [gtF]
  omega

theorem gtF_trans {a b c : GoFloat} (ha : a.WF) (hb : b.WF) (hc : c.WF)
    (h1 : gtF a b = true) (h2 : gtF b c = true) : gtF a c = true := by
  cases a <;> cases b <;> cases c <;> simp_all [gtF, GoFloat.WF]
  all_goals
    nlinarith [Int.ofNat_pos.mpr ha, Int.ofNat_pos.mpr hb, Int.ofNat_pos.mpr hc]

theorem gtF_chain {a b c : GoFloat} (ha : a.WF) (hb : b.WF) (hc : c.WF)
    (h1 : gtF a b = false) (h2 : gtF c b = true) : gtF a c = false := by
  cases a <;> cases b <;> cases c <;> simp_all [gtF, GoFloat.WF]
  all_goals
    nlinarith [Int.ofNat_pos.mpr ha, Int.ofNat_pos.mpr hb, Int.ofNat_pos.mpr hc]



theorem gtF_overtake {p bs m : GoFloat} (hp : p.WF) (hbs : bs.WF) (hm : m.WF)
    (hthr : gtF p scoreThreshold = true)
    (h1 : gtF p bs = false) (h2 : gtF m bs = true) : gtF m p = true := by
  cases p <;> cases bs <;> cases m <;> simp_all [gtF, GoFloat.WF, scoreThreshold]
  all_goals
    nlinarith [Int.ofNat_pos.mpr hp, Int.ofNat_pos.mpr hbs, Int.ofNat_pos.mpr hm]

theorem packFin_WF (s : Bool) (me : Nat × Int) : (packFin s me).WF := by
  unfold packFin
  split
  · exact Nat.one_pos
  · exact pow_pos (by omega) _

theorem roundF_WF (x : GoFloat) : (roundF x).WF := by
  cases x with
  | fin n d =>
    show GoFloat.WF (if d = 0 then .nan
      else if n = 0 then .fin 0 1
      else packFin (decide (n < 0)) (roundPos n.natAbs d))
    by_cases h0 : d = 0
    · rw [if_pos h0]; trivial
    · rw [if_neg h0]
      by_cases h1 : n = 0
      · rw [if_pos h1]; exact Nat.one_pos
      · rw [if_neg h1]; exact packFin_WF _ _
  | nan => trivial
  | pinf => trivial
  | ninf => trivial

theorem divCounts_WF (n d : Nat) : (divCounts n d).WF := by
  unfold divCounts
  split
  · split <;> trivial
  · exact roundF_WF _

theorem mulF_WF (x y : GoFloat) : (mulF x y).WF := by
  cases x with
  | fin n1 d1 =>
    cases y with
    | fin n2 d2 => exact roundF_WF (.fin (n1 * n2) (d1 * d2))
    | nan => trivial
    | pinf =>
      show GoFloat.WF (if n1 = 0 then .nan else if 0 < n1 then .pinf else .ninf)
      split
      · trivial
      · split <;> trivial
    | ninf =>
      show GoFloat.WF (if n1 = 0 then .nan else if 0 < n1 then .ninf else .pinf)
      split
      · trivial
      · split <;> trivial
  | nan => cases y <;> trivial
  | pinf =>
    cases y with
    | fin n2 d2 =>
      show GoFloat.WF (if n2 = 0 then .nan else if 0 < n2 then .pinf else .ninf)
      split
      · trivial
      · split <;> trivial
    | nan => trivial
    | pinf => trivial
    | ninf => trivial
  | ninf =>
    cases y with
    | fin n2 d2 =>
      show GoFloat.WF (if n2 = 0 then .nan else if 0 < n2 then .ninf else .pinf)
      split
      · trivial
      · split <;> trivial
    | nan => trivial
    | pinf => trivial
    | ninf => trivial

theorem addF_WF (x y : GoFloat) : (addF x y).WF := by
  cases x with
  | fin n1 d1 =>
    cases y with
    | fin n2 d2 => exact roundF_WF (.fin (n1 * d2 + n2 * d1) (d1 * d2))
    | nan => trivial
    | pinf => trivial
    | ninf => trivial
  | nan => cases y <;> trivial
  | pinf => cases y <;> trivial
  | ninf => cases y <;> trivial

theorem calc_WF (kw cs : List String) (m : CitationMapping) :
    (calculateSimilarityScore kw cs m).WF := by
  unfold calculateSimilarityScore
  split
  · exact Nat.one_pos
  · exact addF_WF _ _

theorem thr_WF : scoreThreshold.WF := by
  simp [scoreThreshold, GoFloat.WF]

theorem zeroF_WF : (GoFloat.fin 0 1).WF := by
  simp [GoFloat.WF]

theorem gtF_thr_zero {a : GoFloat} (ha : a.WF)
    (h : gtF a scoreThreshold = true) : gtF a (.fin 0 1) = true :=
  gtF_trans ha thr_WF zeroF_WF h (by decide)

/-- Model validation: 1/3 rounds to the binary64 value
`6004799503160661 · 2⁻⁵⁴` (0.3333333333333333). -/
theorem roundF_one_third :
    roundF (.fin 1 3) = .fin 6004799503160661 18014398509481984 := by decide

/-- Model validation: 5/7 rounds to the binary64 value
`6433713753386423 · 2⁻⁵³` (0.7142857142857143). -/
theorem roundF_five_sevenths :
    roundF (.fin 5 7) = .fin 6433713753386423 9007199254740992 := by decide

/-- Model validation: the doubles nearest 0.3 and 0.7 add to exactly
1.0 (in Go, `0.3 + 0.7 == 1.0` holds in `float64`). -/
theorem addF_c03_c07 :
    addF c03 c07 = .fin 9007199254740992 9007199254740992 := by decide

/-- Model validation of ties-to-even: (2^53 + 1) / 2 rounds down to
the even significand 2^52 and (2^53 + 3) / 2 rounds up to 2^52 + 2,
exactly as binary64 arithmetic does. -/
theorem roundF_ties_to_even :
    roundF (.fin 9007199254740993 2) = .fin 4503599627370496 1 ∧
    roundF (.fin 9007199254740995 2) = .fin 4503599627370498 1 := by decide



theorem loop_some_stays (kw cs : List String) (ms : List CitationMapping) :
    ∀ st b, st.1 = some b → ∃ b2, (findBestLoop kw cs st ms).1 = some b2 := by
  induction ms with
  | nil => intro st b h; exact ⟨b, h⟩
  | cons h rest ih =>
    intro st b hst
    obtain ⟨best, bestScore⟩ := st
    simp only [findBestLoop]
    split
    · exact ih (some h, _) h rfl
    · exact ih (best, bestScore) b hst

theorem loop_none_iff (kw cs : List String) (ms : List CitationMapping) :
    (findBestLoop kw cs (none, .fin 0 1) ms).1 = none ↔
      ∀ m ∈ ms, gtF (calculateSimilarityScore kw cs m) scoreThreshold = false := by
  induction ms with
  | nil => simp [findBestLoop]
  | cons h rest ih =>
    simp only [findBestLoop]
    by_cases hthr : gtF (calculateSimilarityScore kw cs h) scoreThreshold = true
    · have hzero : gtF (calculateSimilarityScore kw cs h) (.fin 0 1) = true :=
        gtF_thr_zero (calc_WF kw cs h) hthr
      rw [if_pos (by rw [hzero, hthr]; rfl)]
      constructor
      · intro hc
        obtain ⟨b2, hb2⟩ := loop_some_stays kw cs rest (some h, _) h rfl
        rw [hb2] at hc
        exact absurd hc (by simp)
      · intro hall
        have := hall h (List.mem_cons_self _ _)
        rw [hthr] at this
        exact absurd this (by simp)
    · have hthr' : gtF (calculateSimilarityScore kw cs h) scoreThreshold = false :=
        Bool.eq_false_iff.mpr hthr
      rw [if_neg (by rw [hthr']; simp)]
      rw [ih]
      constructor
      · intro hall m hm
        rcases List.mem_cons.mp hm with rfl | hm'
        · exact hthr'
        · exact hall m hm'
      · intro hall m hm
        exact hall m (List.mem_cons_of_mem _ hm)



theorem loopChar (kw cs : List String) (ms : List CitationMapping) :
    ∀ st : Option CitationMapping × GoFloat,
    (∀ b, st.1 = some b → st.2 = calculateSimilarityScore kw cs b ∧
      gtF (calculateSimilarityScore kw cs b) scoreThreshold = true) →
    st.2.WF →
    ∀ m, (findBestLoop kw cs st ms).1 = some m →
      (st.1 = some m ∧ (findBestLoop kw cs st ms).2 = st.2 ∧
        (∀ p ∈ ms, gtF (calculateSimilarityScore kw cs p) st.2 = false)) ∨
      (∃ pre post, ms = pre ++ m :: post ∧
        gtF (calculateSimilarityScore kw cs m) scoreThreshold = true ∧
        gtF (calculateSimilarityScore kw cs m) st.2 = true ∧
        (findBestLoop kw cs st ms).2 = calculateSimilarityScore kw cs m ∧
        (∀ p ∈ pre, gtF (calculateSimilarityScore kw cs p)
            (calculateSimilarityScore kw cs m) = false ∧
          (gtF (calculateSimilarityScore kw cs p) scoreThreshold = true →
            gtF (calculateSimilarityScore kw cs m)
              (calculateSimilarityScore kw cs p) = true)) ∧
        (∀ p ∈ post, gtF (calculateSimilarityScore kw cs p)
          (calculateSimilarityScore kw cs m) = false)) := by
  induction ms with
  | nil =>
    intro st hs hwf m hres
    exact Or.inl ⟨hres, rfl, by intro p hp; exact absurd hp (List.not_mem_nil p)⟩
  | cons h rest ih =>
    intro st hs hwf m hres
    obtain ⟨best, bestScore⟩ := st
    dsimp only at hs hwf hres ⊢
    rw [show findBestLoop kw cs (best, bestScore) (h :: rest) =
      (if gtF (calculateSimilarityScore kw cs h) bestScore &&
          gtF (calculateSimilarityScore kw cs h) scoreThreshold then
        findBestLoop kw cs (some h, calculateSimilarityScore kw cs h) rest
      else findBestLoop kw cs (best, bestScore) rest) from rfl] at hres ⊢
    by_cases hcond : (gtF (calculateSimilarityScore kw cs h) bestScore &&
        gtF (calculateSimilarityScore kw cs h) scoreThreshold) = true
    · rw [if_pos hcond] at hres ⊢
      have hc1 : gtF (calculateSimilarityScore kw cs h) bestScore = true :=
        (Bool.and_eq_true_iff.mp hcond).1
      have hc2 : gtF (calculateSimilarityScore kw cs h) scoreThreshold = true :=
        (Bool.and_eq_true_iff.mp hcond).2
      have hres' := ih (some h, calculateSimilarityScore kw cs h)
        (by
          intro b hb
          rw [Option.some.injEq] at hb
          subst hb
          exact ⟨rfl, hc2⟩)
        (calc_WF kw cs h) m hres
      rcases hres' with ⟨hb, hloop2, hdom⟩ | ⟨pre', post', hsplit, hthrm, hgt, hloop2, hpre, hpost⟩
      · rw [Option.some.injEq] at hb
        subst hb
        refine Or.inr ⟨[], rest, rfl, hc2, hc1, ?_, ?_, ?_⟩
        · exact hloop2
        · intro p hp
          exact absurd hp (List.not_mem_nil p)
        · exact hdom
      · refine Or.inr ⟨h :: pre', post', by rw [hsplit]; rfl, hthrm, ?_, hloop2, ?_, hpost⟩
        · exact gtF_trans (calc_WF kw cs m) (calc_WF kw cs h) hwf hgt hc1
        · intro p hp
          rcases List.mem_cons.mp hp with rfl | hp'
          · exact ⟨gtF_asymm hgt, fun _ => hgt⟩
          · exact hpre p hp'
    · rw [if_neg hcond] at hres ⊢
      have hres' := ih (best, bestScore) hs hwf m hres
      have hcond' : gtF (calculateSimilarityScore kw cs h) bestScore = false ∨
          gtF (calculateSimilarityScore kw cs h) scoreThreshold = false := by
        cases hx : gtF (calculateSimilarityScore kw cs h) bestScore
        · exact Or.inl rfl
        · cases hy : gtF (calculateSimilarityScore kw cs h) scoreThreshold
          · exact Or.inr rfl
          · exact absurd (by rw [hx, hy]; rfl) hcond
      rcases hres' with ⟨hb, hloop2, hdom⟩ | ⟨pre', post', hsplit, hthrm, hgt, hloop2, hpre, hpost⟩
      · refine Or.inl ⟨hb, hloop2, ?_⟩
        intro p hp
        rcases List.mem_cons.mp hp with rfl | hp'
        · rcases hcond' with hbs | hthr
          · exact hbs
          · obtain ⟨hbseq, hmthr⟩ := hs m hb
            rw [hbseq]
            exact gtF_chain (calc_WF kw cs p) thr_WF (calc_WF kw cs m) hthr hmthr
        · exact hdom p hp'
      · refine Or.inr ⟨h :: pre', post', by rw [hsplit]; rfl, hthrm, hgt, hloop2, ?_, hpost⟩
        intro p hp
        rcases List.mem_cons.mp hp with rfl | hp'
        · by_cases hhthr : gtF (calculateSimilarityScore kw cs p) scoreThreshold = true
          · have hbs : gtF (calculateSimilarityScore kw cs p) bestScore = false := by
              rcases hcond' with hbs | hthr
              · exact hbs
              · exact absurd hhthr (by rw [hthr]; simp)
            refine ⟨?_, fun _ => ?_⟩
            · exact gtF_chain (calc_WF kw cs p) hwf (calc_WF kw cs m) hbs hgt
            · exact gtF_overtake (calc_WF kw cs p) hwf (calc_WF kw cs m) hhthr hbs hgt
          · have hthrf : gtF (calculateSimilarityScore kw cs p) scoreThreshold = false :=
              Bool.eq_false_iff.mpr hhthr
            refine ⟨?_, fun hcontra => absurd hcontra hhthr⟩
            exact gtF_chain (calc_WF kw cs p) thr_WF (calc_WF kw cs m) hthrf hthrm
        · exact hpre p hp'



/-- Claim C5 (amended): similarity scores are the `float64` evaluation
of the 0.3/0.7 weighted overlap formula, with every operation
correctly rounded, and selection is characterized at that level:
`findBestMapping` returns `none` exactly when no mapping's rounded
score strictly exceeds the rounded 0.6 threshold (and the sentence is
then emitted unchanged); a returned mapping scores strictly above the
threshold, strictly above every earlier candidate that beats the
threshold (so ties between the computed `float64` scores go to the
mapping evaluated first), and no later candidate scores strictly above
it.  Ties of the exact real-arithmetic formula need not go to the
first mapping, because rounding can separate rationally equal scores
(see the counterexample). -/
theorem findBestMapping_selection_spec (s : String) (ms : List CitationMapping) :
    (findBestMapping s ms = none ↔
      ∀ m ∈ ms, gtF (calculateSimilarityScore (extractKeywords s) (extractConcepts s) m)
        scoreThreshold = false) ∧
    (∀ m, findBestMapping s ms = some m →
      ∃ pre post, ms = pre ++ m :: post ∧
        gtF (calculateSimilarityScore (extractKeywords s) (extractConcepts s) m)
          scoreThreshold = true ∧
        (∀ p ∈ pre,
          gtF (calculateSimilarityScore (extractKeywords s) (extractConcepts s) p)
            (calculateSimilarityScore (extractKeywords s) (extractConcepts s) m) = false ∧
          (gtF (calculateSimilarityScore (extractKeywords s) (extractConcepts s) p)
            scoreThreshold = true →
           gtF (calculateSimilarityScore (extractKeywords s) (extractConcepts s) m)
            (calculateSimilarityScore (extractKeywords s) (extractConcepts s) p) = true)) ∧
        (∀ p ∈ post,
          gtF (calculateSimilarityScore (extractKeywords s) (extractConcepts s) p)
            (calculateSimilarityScore (extractKeywords s) (extractConcepts s) m) = false)) ∧
    (findBestMapping s ms = none → enhanceSentence ms s = s) := by
  refine ⟨?_, ?_, ?_⟩
  · unfold findBestMapping
    by_cases hemp : ms.isEmpty
    · rw [if_pos hemp]
      have : ms = [] := List.isEmpty_iff.mp hemp
      subst this
      simp
    · rw [if_neg hemp]
      exact loop_none_iff _ _ ms
  · intro m hm
    unfold findBestMapping at hm
    by_cases hemp : ms.isEmpty
    · rw [if_pos hemp] at hm
      exact absurd hm (by simp)
    · rw [if_neg hemp] at hm
      have hres := loopChar (extractKeywords s) (extractConcepts s) ms
        (none, .fin 0 1) (by intro b hb; exact absurd hb (by simp)) zeroF_WF m hm
      rcases hres with ⟨hb, _, _⟩ | ⟨pre, post, hsplit, hthr, _, _, hpre, hpost⟩
      · exact absurd hb (by simp)
      · exact ⟨pre, post, hsplit, hthr, hpre, hpost⟩
  · intro hm
    unfold enhanceSentence
    rw [hm]

/-- Claim C10: a mapping whose keyword and concept lists are both
empty is never selected by `findBestMapping`: its score is the literal
0.0, which never exceeds the 0.6 acceptance threshold. -/
theorem findBestMapping_skips_empty_fingerprint (s : String)
    (ms : List CitationMapping) (m : CitationMapping)
    (h : findBestMapping s ms = some m) :
    ¬(m.Keywords = [] ∧ m.Concepts = []) := by
  rintro ⟨hk, hc⟩
  unfold findBestMapping at h
  by_cases hemp : ms.isEmpty
  · rw [if_pos hemp] at h
    exact absurd h (by simp)
  · rw [if_neg hemp] at h
    have hres := loopChar (extractKeywords s) (extractConcepts s) ms
      (none, .fin 0 1) (by intro b hb; exact absurd hb (by simp)) zeroF_WF m h
    rcases hres with ⟨hb, _, _⟩ | ⟨_, _, _, hthr, _⟩
    · exact absurd hb (by simp)
    · have hscore : calculateSimilarityScore (extractKeywords s) (extractConcepts s) m =
          .fin 0 1 := by
        unfold calculateSimilarityScore
        rw [if_pos (by rw [hk, hc]; rfl)]
      rw [hscore] at hthr
      exact absurd hthr (by decide)



/-- Claim C5, witness: with a weak first mapping and a fully matching
second mapping, the second is selected and satisfies the
characterization. -/
theorem findBestMapping_selection_spec_witness :
    findBestMapping "inflammation" [mWeak, mInfl] = some mInfl ∧
    (∃ pre post, [mWeak, mInfl] = pre ++ mInfl :: post ∧
      gtF (calculateSimilarityScore (extractKeywords "inflammation")
        (extractConcepts "inflammation") mInfl) scoreThreshold = true ∧
      (∀ p ∈ pre,
        gtF (calculateSimilarityScore (extractKeywords "inflammation")
            (extractConcepts "inflammation") p)
          (calculateSimilarityScore (extractKeywords "inflammation")
            (extractConcepts "inflammation") mInfl) = false ∧
        (gtF (calculateSimilarityScore (extractKeywords "inflammation")
            (extractConcepts "inflammation") p) scoreThreshold = true →
         gtF (calculateSimilarityScore (extractKeywords "inflammation")
            (extractConcepts "inflammation") mInfl)
          (calculateSimilarityScore (extractKeywords "inflammation")
            (extractConcepts "inflammation") p) = true)) ∧
      (∀ p ∈ post,
        gtF (calculateSimilarityScore (extractKeywords "inflammation")
            (extractConcepts "inflammation") p)
          (calculateSimilarityScore (extractKeywords "inflammation")
            (extractConcepts "inflammation") mInfl) = false)) :=
  ⟨by decide,
   (findBestMapping_selection_spec "inflammation" [mWeak, mInfl]).2.1 mInfl (by decide)⟩

/-- The claim's similarity formula evaluated in exact rational
arithmetic (spec-side definition, for comparison with the rounded
`float64` computation of `calculateSimilarityScore`). -/
def exactScoreQ (s : String) (m : CitationMapping) : ℚ :=
  3 / 10 * ((countOverlap (extractKeywords s) m.Keywords : ℚ) /
      ((max (extractKeywords s).length m.Keywords.length : ℕ) : ℚ)) +
    7 / 10 * ((countOverlap (extractConcepts s) m.Concepts : ℚ) /
      ((max (extractConcepts s).length m.Concepts.length : ℕ) : ℚ))

/-- A sentence with exactly one extracted keyword (`inflammation`) and
five extracted concepts (`curcumin`, `inflammation`, `oxidative`,
`tumor`, `cancer`). -/
def tieSentence : String :=
  "Curcumin reduces inflammation, oxidative stress, tumor growth and cancer."

/-- First mapping of the exact-tie counterexample: keyword overlap
ratio 1/1 and concept overlap ratio 3/6 against `tieSentence`. -/
def mTieA : CitationMapping :=
  ⟨"Sentence A.", ["[1]"], ["inflammation"],
   ["curcumin", "inflammation", "oxidative", "metabolism", "efficacy",
    "clinical"], "idA"⟩

/-- Second mapping of the exact-tie counterexample: keyword overlap
ratio 1/2 and concept overlap ratio 5/7 against `tieSentence`. -/
def mTieB : CitationMapping :=
  ⟨"Sentence B.", ["[2]"], ["inflammation", "bioavailability"],
   ["curcumin", "inflammation", "oxidative", "tumor", "cancer",
    "therapeutic", "antioxidant"], "idB"⟩

/-- Claim C5, counterexample: under the claim's exact real-arithmetic
formula both mappings score exactly 13/20 = 0.65, yet the `float64`
evaluation rounds the first score to `5854679515581644 · 2⁻⁵³`
(0.6499999999999999) and the second to `5854679515581645 · 2⁻⁵³`
(0.65), one unit in the last place higher, so `findBestMapping`
selects the second mapping: an exact score tie is not resolved in
favour of the mapping evaluated first. -/
theorem findBestMapping_exact_tie_counterexample :
    exactScoreQ tieSentence mTieA = 13 / 20 ∧
    exactScoreQ tieSentence mTieB = 13 / 20 ∧
    calculateSimilarityScore (extractKeywords tieSentence)
      (extractConcepts tieSentence) mTieA =
        .fin 5854679515581644 9007199254740992 ∧
    calculateSimilarityScore (extractKeywords tieSentence)
      (extractConcepts tieSentence) mTieB =
        .fin 5854679515581645 9007199254740992 ∧
    findBestMapping tieSentence [mTieA, mTieB] = some mTieB := by
  refine ⟨?_, ?_, by decide, by decide, by decide⟩
  · unfold exactScoreQ
    rw [show countOverlap (extractKeywords tieSentence) mTieA.Keywords = 1
          from by decide,
        show max (extractKeywords tieSentence).length mTieA.Keywords.length = 1
          from by decide,
        show countOverlap (extractConcepts tieSentence) mTieA.Concepts = 3
          from by decide,
        show max (extractConcepts tieSentence).length mTieA.Concepts.length = 6
          from by decide]
    norm_num
  · unfold exactScoreQ
    rw [show countOverlap (extractKeywords tieSentence) mTieB.Keywords = 1
          from by decide,
        show max (extractKeywords tieSentence).length mTieB.Keywords.length = 2
          from by decide,
        show countOverlap (extractConcepts tieSentence) mTieB.Concepts = 5
          from by decide,
        show max (extractConcepts tieSentence).length mTieB.Concepts.length = 7
          from by decide]
    norm_num

/-- Claim C10, witness: a concrete selection, whose selected mapping
therefore has a non-empty fingerprint. -/
theorem findBestMapping_skips_empty_fingerprint_witness :
    findBestMapping "inflammation" [mInfl] = some mInfl ∧
    ¬(mInfl.Keywords = [] ∧ mInfl.Concepts = []) :=
  ⟨by decide, findBestMapping_skips_empty_fingerprint "inflammation" [mInfl] mInfl (by decide)⟩



/-- Lexicographic comparison of character lists (code-point order; on
UTF-8 strings this coincides with Go byte order). -/
def lexLeChars : List Char → List Char → Bool
  | [], _ => true
  | _ :: _, [] => false
  | a :: as, b :: bs => if a = b then lexLeChars as bs else decide (a < b)

/-- Lexicographic string comparison, as used by Go `sort.Strings`. -/
def strLeB (a b : String) : Bool := lexLeChars (chars a) (chars b)

theorem lexLeChars_total (as : List Char) :
    ∀ bs, lexLeChars as bs = true ∨ lexLeChars bs as = true := by
  induction as with
  | nil => intro bs; exact Or.inl rfl
  | cons a as ih =>
    intro bs
    cases bs with
    | nil => exact Or.inr rfl
    | cons b bs =>
      simp only [lexLeChars]
      by_cases hab : a = b
      · subst hab
        simpa using ih bs
      · have hba : b ≠ a := fun h => hab h.symm
        rcases lt_or_gt_of_ne hab with h | h
        · left; simp [hab, h]
        · right; simp [hba, h]

theorem lexLeChars_trans (as : List Char) :
    ∀ bs cs, lexLeChars as bs = true → lexLeChars bs cs = true →
      lexLeChars as cs = true := by
  induction as with
  | nil => intro bs cs _ _; rfl
  | cons a as ih =>
    intro bs cs h1 h2
    cases bs with
    | nil => simp [lexLeChars] at h1
    | cons b bs =>
      cases cs with
      | nil => simp [lexLeChars] at h2
      | cons c cs =>
        simp only [lexLeChars] at h1 h2 ⊢
        by_cases hab : a = b
        · subst hab
          by_cases hbc : a = c
          · subst hbc
            simp only [if_pos rfl] at h1 h2 ⊢
            exact ih bs cs h1 h2
          · simp only [if_pos rfl] at h1
            simp only [if_neg hbc] at h2 ⊢
            exact h2
        · by_cases hbc : b = c
          · subst hbc
            simp only [if_neg hab] at h1 ⊢
            exact h1
          · simp only [if_neg hab] at h1
            simp only [if_neg hbc] at h2
            by_cases hac : a = c
            · subst hac
              simp only [decide_eq_true_eq] at h1 h2
              exact absurd (lt_trans h1 h2) (lt_irrefl a)
            · simp only [if_neg hac, decide_eq_true_eq] at h1 h2 ⊢
              exact lt_trans h1 h2

theorem lexLeChars_antisymm (as : List Char) :
    ∀ bs, lexLeChars as bs = true → lexLeChars bs as = true → as = bs := by
  induction as with
  | nil =>
    intro bs _ h2
    cases bs with
    | nil => rfl
    | cons b bs => simp [lexLeChars] at h2
  | cons a as ih =>
    intro bs h1 h2
    cases bs with
    | nil => simp [lexLeChars] at h1
    | cons b bs =>
      simp only [lexLeChars] at h1 h2
      by_cases hab : a = b
      · subst hab
        simp only [if_pos rfl] at h1 h2
        rw [ih bs h1 h2]
      · have hba : b ≠ a := fun h => hab h.symm
        simp only [if_neg hab, decide_eq_true_eq] at h1
        simp only [if_neg hba, decide_eq_true_eq] at h2
        exact absurd (lt_trans h1 h2) (lt_irrefl a)

instance : IsTotal String (strLeB · · = true) :=
  ⟨fun a b => lexLeChars_total (chars a) (chars b)⟩

instance : IsTrans String (strLeB · · = true) :=
  ⟨fun a b c => lexLeChars_trans (chars a) (chars b) (chars c)⟩

instance : IsAntisymm String (strLeB · · = true) :=
  ⟨fun a b h1 h2 => by
    have := lexLeChars_antisymm (chars a) (chars b) h1 h2
    cases a; cases b
    simp only [chars] at this
    rw [this]⟩

/-- Go `sort.Strings` (ascending lexicographic order). -/
def sortStrings (l : List String) : List String :=
  List.insertionSort (strLeB · · = true) l




/-- `extractInTextCitations`: the Go code iterates a map of pattern
categories in unspecified order; each category's raw matches are a
fixed function of the text (the regex matchers are abstracted as those
functions, and the map order as the list order, so every claim is
quantified over it).  Matches are trimmed, deduplicated by exact string
in first-seen order, and sorted; the per-category raw matches are
recorded unchanged. -/
def extractInTextCitations (categories : List (String × (String → List String)))
    (text : String) : List String × List (String × List String) :=
  let collected := (categories.map (fun c => (c.2 text).map goTrimSpace)).flatten
  (sortStrings (dedupFirstSeen collected),
   categories.map (fun c => (c.1, c.2 text)))

/-- Claim C3: the in-text citation list is duplicate-free and
lexicographically sorted, and permuting the evaluation order of the
pattern categories never changes it. -/
theorem extractInTextCitations_deterministic
    (cats cats2 : List (String × (String → List String))) (text : String)
    (hperm : cats.Perm cats2) :
    (extractInTextCitations cats text).1.Sorted (strLeB · · = true) ∧
    (extractInTextCitations cats text).1.Nodup ∧
    (extractInTextCitations cats text).1 = (extractInTextCitations cats2 text).1 := by
  have hsorted : ∀ cs : List (String × (String → List String)),
      (extractInTextCitations cs text).1.Sorted (strLeB · · = true) := by
    intro cs
    exact List.sorted_insertionSort _ _
  have hnd : ∀ cs : List (String × (String → List String)),
      (extractInTextCitations cs text).1.Nodup := by
    intro cs
    exact ((List.perm_insertionSort _ _).nodup_iff).mpr (nodup_dedupSeen _ [])
  refine ⟨hsorted cats, hnd cats, ?_⟩
  have hjoin : ((cats.map (fun c => (c.2 text).map goTrimSpace)).flatten).Perm
      ((cats2.map (fun c => (c.2 text).map goTrimSpace)).flatten) :=
    (hperm.map _).flatten
  have hmem : ∀ x,
      x ∈ dedupFirstSeen ((cats.map (fun c => (c.2 text).map goTrimSpace)).flatten) ↔
      x ∈ dedupFirstSeen ((cats2.map (fun c => (c.2 text).map goTrimSpace)).flatten) := by
    intro x
    unfold dedupFirstSeen
    rw [mem_dedupSeen, mem_dedupSeen]
    simp only [List.not_mem_nil, not_false_iff, and_true]
    exact ⟨fun h => hjoin.mem_iff.mp h, fun h => hjoin.mem_iff.mpr h⟩
  have hpermdedup :
      (dedupFirstSeen ((cats.map (fun c => (c.2 text).map goTrimSpace)).flatten)).Perm
      (dedupFirstSeen ((cats2.map (fun c => (c.2 text).map goTrimSpace)).flatten)) := by
    apply List.perm_of_nodup_nodup_toFinset_eq (nodup_dedupSeen _ []) (nodup_dedupSeen _ [])
    ext x
    simp only [List.mem_toFinset]
    exact hmem x
  have hp : ((extractInTextCitations cats text).1).Perm
      ((extractInTextCitations cats2 text).1) :=
    ((List.perm_insertionSort _ _).trans hpermdedup).trans
      (List.perm_insertionSort _ _).symm
  exact List.eq_of_perm_of_sorted hp (hsorted cats) (hsorted cats2)

/-- A concrete category used in the determinism witness. -/
def catA : String × (String → List String) :=
  ("numeric_brackets", fun _ => [" [2]", "[1]"])

/-- A second concrete category used in the determinism witness. -/
def catB : String × (String → List String) :=
  ("doi_citations", fun _ => ["doi:10.1", "[1] "])

/-- Claim C3, witness: two concrete categories evaluated in either
order produce the same sorted duplicate-free citation list. -/
theorem extractInTextCitations_deterministic_witness :
    [catA, catB].Perm [catB, catA] ∧
    (extractInTextCitations [catA, catB] "t").1 = ["[1]", "[2]", "doi:10.1"] ∧
    (extractInTextCitations [catA, catB] "t").1 =
      (extractInTextCitations [catB, catA] "t").1 :=
  ⟨List.Perm.swap catB catA [], by decide,
   (extractInTextCitations_deterministic [catA, catB] [catB, catA] "t"
     (List.Perm.swap catB catA [])).2.2⟩



/-! ## A small regular-expression engine

The Go sources match lines against `regexp` patterns.  Each pattern is
transcribed into the following syntax and matched with Brzozowski
derivatives; only the existence of a match matters anywhere in the
normalizer, never the matched substring, so leftmost/greedy questions
do not arise. -/

/-- Regular expressions over characters, with character classes as
predicates. -/
inductive Re where
  | emp
  | eps
  | cls (p : Char → Bool)
  | cat (a b : Re)
  | alt (a b : Re)
  | star (a : Re)

/-- Does the language of `r` contain the empty word? -/
def Re.nullable : Re → Bool
  | .emp => false
  | .eps => true
  | .cls _ => false
  | .cat a b => a.nullable && b.nullable
  | .alt a b => a.nullable || b.nullable
  | .star _ => true

/-- Brzozowski derivative of `r` by the character `c`. -/
def Re.deriv : Re → Char → Re
  | .emp, _ => .emp
  | .eps, _ => .emp
  | .cls p, c => if p c then .eps else .emp
  | .cat a b, c =>
    if a.nullable then .alt (.cat (a.deriv c) b) (b.deriv c)
    else .cat (a.deriv c) b
  | .alt a b, c => .alt (a.deriv c) (b.deriv c)
  | .star a, c => .cat (a.deriv c) (.star a)

/-- Does some prefix of `cs` (the empty one included) match `r`? -/
def Re.matchesPref (r : Re) : List Char → Bool
  | [] => r.nullable
  | c :: rest => r.nullable || (r.deriv c).matchesPref rest

/-- Does the whole of `cs` match `r`? -/
def Re.matchFull (r : Re) (cs : List Char) : Bool :=
  (cs.foldl Re.deriv r).nullable

/-- Does any substring of `cs` match `r`?  (Go `MatchString` for a
pattern without anchors.) -/
def Re.containsMatch (r : Re) : List Char → Bool
  | [] => r.nullable
  | c :: rest => r.matchesPref (c :: rest) || r.containsMatch rest

/-- Is the optional character a word character? -/
def isWordOpt : Option Char → Bool
  | none => false
  | some c => isWordChar c

/-- Does some prefix of `cs` match `r` and end at a word boundary?
`prev` is the character immediately before the unmatched remainder
(initially the character before the match, `none` at the start of the
text). -/
def Re.prefBoundary (r : Re) (prev : Option Char) : List Char → Bool
  | [] => r.nullable && isWordOpt prev
  | c :: rest =>
    (r.nullable && (isWordOpt prev != isWordChar c)) ||
      (r.deriv c).prefBoundary (some c) rest

/-- Does `cs` contain a match of `r` with word boundaries on both
sides?  (Go `MatchString` for a pattern wrapped in word-boundary
anchors.)  `prev` is the character before the current position. -/
def Re.containsBounded (r : Re) (prev : Option Char) : List Char → Bool
  | [] => (isWordOpt prev != false) && r.prefBoundary prev []
  | c :: rest =>
    ((isWordOpt prev != isWordChar c) && r.prefBoundary prev (c :: rest)) ||
      r.containsBounded (some c) rest

/-- The class containing exactly `c`. -/
def chC (c : Char) : Re := .cls (fun x => x = c)

/-- ASCII lower-casing of a character. -/
def lowerChar (c : Char) : Char :=
  if isUpperAscii c then Char.ofNat (c.toNat + 32) else c

/-- The class containing `c` case-insensitively (for `(?i)` patterns). -/
def chI (c : Char) : Re := .cls (fun x => lowerChar x = lowerChar c)

/-- Concatenation of a list of expressions. -/
def catL (l : List Re) : Re := l.foldr Re.cat .eps

/-- Alternation of a list of expressions. -/
def altL (l : List Re) : Re := l.foldr Re.alt .emp

/-- Case-sensitive literal. -/
def litS (s : String) : Re := catL ((chars s).map chC)

/-- Case-insensitive literal. -/
def litI (s : String) : Re := catL ((chars s).map chI)

/-- A class given by its member characters. -/
def clsOf (s : String) : Re := .cls (fun c => (chars s).contains c)

/-- One or more repetitions. -/
def plus (r : Re) : Re := .cat r (.star r)

/-- Zero or one repetition. -/
def opt (r : Re) : Re := .alt .eps r

/-- The Go regexp `\s` class. -/
def sCls : Re := .cls goRegexSpace

/-- The Go regexp `\d` class. -/
def dCls : Re := .cls isDigitAscii

/-- The Go regexp `\w` class. -/
def wCls : Re := .cls isWordChar

/-- The Go regexp `.` (any character but newline). -/
def dotCls : Re := .cls (fun c => c != '\n')

/-- `r{0,n}`: at most `n` repetitions. -/
def atMost : Nat → Re → Re
  | 0, _ => .eps
  | n + 1, r => opt (.cat r (atMost n r))

/-- `r{1,n}`: between one and `n` repetitions. -/
def between1 (n : Nat) (r : Re) : Re := .cat r (atMost (n - 1) r)



/-! ## The citation matcher set (§4.2, services/citations.go) -/

/-- ASCII uppercase class. -/
def uCls : Re := .cls isUpperAscii

/-- ASCII lowercase class. -/
def lCls : Re := .cls isLowerAscii

/-- The `[a-zA-Z\s&,]` class of the author-year patterns. -/
def ayCls : Re := .cls (fun c => isAsciiLetter c || goRegexSpace c || c = '&' || c = ',')

/-- The `[-–,\s]` separator class of the numeric patterns. -/
def sepCls : Re := .cls (fun c => c = '-' || c = '–' || c = ',' || goRegexSpace c)

/-- Unicode superscript digits. -/
def supCls : Re := clsOf "¹²³⁴⁵⁶⁷⁸⁹⁰"

/-- The `[\d,\s-]` class of the superscript-text patterns. -/
def supTxtCls : Re := .cls (fun c => isDigitAscii c || c = ',' || goRegexSpace c || c = '-')

/-- `author_year`. -/
def reAuthorYear : Re :=
  catL [chC '(', uCls, plus ayCls, plus sCls, litS "et", plus sCls, litS "al",
    opt (chC '.'), opt (chC ','), .star sCls, dCls, dCls, dCls, dCls,
    opt lCls, chC ')']

/-- `author_year_simple`. -/
def reAuthorYearSimple : Re :=
  catL [chC '(', uCls, plus ayCls, opt (chC ','), .star sCls,
    dCls, dCls, dCls, dCls, opt lCls, chC ')']

/-- `author_year_pages`. -/
def reAuthorYearPages : Re :=
  catL [chC '(', uCls, plus ayCls, plus sCls, litS "et", plus sCls, litS "al",
    opt (chC '.'), opt (chC ','), .star sCls, dCls, dCls, dCls, dCls, opt lCls,
    opt (chC ','), .star sCls, chC 'p', opt (chC 'p'), chC '.', .star sCls,
    plus dCls, opt (.cls (fun c => c = '-' || c = '–')), .star dCls, chC ')']

/-- `numeric_brackets`. -/
def reNumericBrackets : Re :=
  catL [chC '[', between1 3 dCls,
    atMost 4 (.cat (.star sepCls) (between1 3 dCls)), chC ']']

/-- `numeric_parens_after_word`. -/
def reNumericParens : Re :=
  catL [wCls, .star sCls, chC '(', between1 3 dCls,
    atMost 4 (.cat (.star sepCls) (between1 3 dCls)), chC ')']

/-- `vancouver_after_sentence`. -/
def reVancouver : Re :=
  catL [.cls (fun c => c = '.' || c = '!' || c = '?'), .star sCls,
    between1 3 dCls, atMost 4 (catL [chC ',', .star sCls, between1 3 dCls]),
    plus sCls, uCls]

/-- `superscript_unicode`. -/
def reSuperUnicode : Re := plus supCls

/-- `superscript_text`. -/
def reSuperText : Re := catL [chC '^', plus supTxtCls, chC '^']

/-- `superscript_markup`. -/
def reSuperMarkup : Re := catL [litS "<sup>", plus supTxtCls, litS "</sup>"]

/-- `multiple_authors`. -/
def reMultipleAuthors : Re :=
  catL [chC '(', uCls, plus ayCls, plus sCls, litS "et", plus sCls, litS "al",
    opt (chC '.'), .star sCls, .cls (fun c => c = ';' || c = ','), .star sCls,
    dCls, dCls, dCls, dCls, opt lCls,
    .star (catL [.star sCls, .cls (fun c => c = ';' || c = ','), .star sCls,
      uCls, plus ayCls, plus sCls, litS "et", plus sCls, litS "al",
      opt (chC '.'), .star sCls, .cls (fun c => c = ';' || c = ','), .star sCls,
      dCls, dCls, dCls, dCls, opt lCls]),
    chC ')']

/-- `doi_citations`. -/
def reDoi : Re :=
  catL [litS "doi:", .star sCls, litS "10.", plus dCls,
    .star (.cls (fun c => !goRegexSpace c))]

/-- `footnote_markers`. -/
def reFootnote : Re := .alt (plus supCls) (plus dCls)

/-- Modelled from the spec: the citation-detection predicate
`ContainsCitation`, whose definition is not under src/ (only its
callers in the normalizer are).  Per §4.1/§4.2 a line "contains a
detected citation pattern" when some pattern of the extractor's matcher
set matches somewhere in it; the union below is that matcher set,
ordered with the cheap catch-all first (the union is order-independent). -/
def ContainsCitation (s : String) : Bool :=
  [reFootnote, reNumericBrackets, reDoi, reSuperUnicode, reSuperText,
   reSuperMarkup, reNumericParens, reVancouver, reAuthorYear,
   reAuthorYearSimple, reAuthorYearPages, reMultipleAuthors].any
    (fun r => r.containsMatch (chars s))

/-- `isLikelyPageNumber`: the trimmed line is a bare number or a
"Page 12" / "12/45" form. -/
def isLikelyPageNumber (s : String) : Bool :=
  let trimmed := goTrimSpace s
  if trimmed = "" then false
  else
    (catL [opt (catL [.alt (chC 'P') (chC 'p'), litS "age", .star sCls]),
      plus dCls,
      opt (catL [.star sCls, chC '/', .star sCls, plus dCls])]).matchFull
      (chars trimmed)

/-- `countVisibleRunes`: characters that are not Unicode whitespace. -/
def countVisibleRunes (s : String) : Nat :=
  ((chars s).filter (fun c => !goIsSpace c)).length




/-- Apply a start-anchored pattern (`^...`) to a line. -/
def pStart (r : Re) (t : String) : Bool := r.matchesPref (chars t)

/-- Apply an unanchored pattern to a line. -/
def pContains (r : Re) (t : String) : Bool := r.containsMatch (chars t)

/-- Apply a pattern wrapped in word boundaries to a line. -/
def pBounded (r : Re) (t : String) : Bool := r.containsBounded none (chars t)

/-- Apply a start-anchored pattern with a trailing word boundary
(`^...\b`) to a line. -/
def pStartB (r : Re) (t : String) : Bool := r.prefBoundary none (chars t)

/-- Apply a fully anchored pattern (`^...$`) to a line. -/
def pFull (r : Re) (t : String) : Bool := r.matchFull (chars t)

/-- The apostrophe character. -/
def apos : Char := Char.ofNat 39

/-- The base pattern list of `stripPublisherBoilerplate`. -/
def publisherBoilerplatePatterns : List (String → Bool) :=
  [pStart (altL [litI "©", litI "copyright", litI "all rights reserved"]),
   pStart (catL [litI "this ", .alt (litI "article") (litI "manuscript"),
     litI " ", .alt (litI "is") (litI "was"), litI " ",
     altL [litI "an open access", litI "distributed", litI "published"]]),
   pStart (.alt (litI "creative commons")
     (catL [litI "cc", opt (chC '-'), litI "by"])),
   pStart (litI "permission to reproduce"),
   pStart (catL [litI "right", opt (chI 's'), litI " and permissions"]),
   pStart (altL [litI "dvips", litI "miktex", litI "ghostscript"]),
   pContains (catL [litI "acrobat", plus sCls, litI "distiller"]),
   pContains (catL [litI "arbortext", plus sCls, litI "advanced", plus sCls,
     litI "print", plus sCls, litI "publisher"]),
   pBounded (litI "frontiersin.org"),
   pStartB (litI "frontiers"),
   pStartB (catL [litI "open", plus sCls, litI "access"]),
   pStartB (catL [litI "edited", plus sCls, litI "by"]),
   pStartB (catL [litI "reviewed", plus sCls, litI "by"]),
   pStartB (catL [litI "publisher", opt (chC apos), litI "s", plus sCls,
     litI "note"])]

/-- The publisher-hint pattern additions of `stripPublisherBoilerplate`. -/
def publisherHintPatterns (hint : String) : List (String → Bool) :=
  let h := goToLower (goTrimSpace hint)
  if h = "springer" then [pStart (litI "springer")]
  else if h = "elsevier" then [pStart (litI "elsevier")]
  else if h = "wiley" then [pStart (litI "wiley")]
  else if h = "nature" then
    [pStart (catL [litI "nature ", .alt (litI "research") (litI "publishing")])]
  else if h = "frontiers" then
    [pStart (litI "frontiers"), pBounded (litI "frontiersin.org"),
     pStartB (catL [litI "type", plus sCls, litI "review"]),
     pStartB (litI "citation")]
  else []

/-- The line loop of `stripLinesByPatternsProtectingCitations`: keep
blank lines and lines whose trimmed text contains a citation, drop
lines whose trimmed text matches one of the patterns. -/
def stripLinesLoop (cite : String → Bool) (patterns : List (String → Bool)) :
    List String → List String × Nat
  | [] => ([], 0)
  | l :: rest =>
    let acc := stripLinesLoop cite patterns rest
    let t := goTrimSpace l
    if t = "" then (l :: acc.1, acc.2)
    else if cite t then (l :: acc.1, acc.2)
    else if patterns.any (fun p => p t) then (acc.1, acc.2 + 1)
    else (l :: acc.1, acc.2)

/-- `stripLinesByPatternsProtectingCitations`. -/
def stripLinesByPatternsProtectingCitations (cite : String → Bool)
    (s : String) (patterns : List (String → Bool)) : String × Nat :=
  let acc := stripLinesLoop cite patterns (splitLines s)
  (goJoin "\n" acc.1, acc.2)

/-- `stripPublisherBoilerplate`. -/
def stripPublisherBoilerplate (cite : String → Bool) (s hint : String) :
    String × Nat :=
  stripLinesByPatternsProtectingCitations cite s
    (publisherBoilerplatePatterns ++ publisherHintPatterns hint)

/-- The heading pattern that ends front matter. -/
def introRe : Re :=
  catL [.star sCls, opt (catL [plus dCls, plus sCls]), litI "introduction",
    .star sCls]

/-- The front-matter pattern list of `stripFrontMatter`. -/
def frontMatterPatterns : List (String → Bool) :=
  [pStart (catL [litI "keyword", opt (chI 's'), .star sCls, chC ':']),
   pStart (catL [litI "abbreviation", opt (chI 's'), .star sCls, chC ':']),
   pStart (catL [litI "received", .star sCls, chC ':']),
   pStart (catL [litI "accepted", .star sCls, chC ':']),
   pStart (catL [litI "published", .star sCls, chC ':']),
   pStart (catL [litI "author", plus sCls, litI "contribution", opt (chI 's'),
     .star sCls, chC ':']),
   pStart (catL [litI "funding", .star sCls, chC ':']),
   pStart (catL [litI "conflict", opt (chI 's'), litI " of interest",
     .star sCls, chC ':']),
   pStartB (catL [litI "open", plus sCls, litI "access"]),
   pStartB (catL [litI "edited", plus sCls, litI "by"]),
   pStartB (catL [litI "reviewed", plus sCls, litI "by"]),
   pStartB (catL [litI "type", plus sCls, litI "review"]),
   pStartB (catL [litI "publisher", opt (chC apos), litI "s", plus sCls,
     litI "note"])]

/-- The line loop of `stripFrontMatter`: before the Introduction heading
(when one exists), drop non-citation lines matching a front-matter
pattern; from the heading on, keep everything. -/
def stripFrontMatterLoop (cite : String → Bool) (introIdx : Option Nat)
    (i : Nat) : List String → List String × Nat
  | [] => ([], 0)
  | l :: rest =>
    let acc := stripFrontMatterLoop cite introIdx (i + 1) rest
    let t := goTrimSpace l
    if t = "" then (l :: acc.1, acc.2)
    else if (match introIdx with
             | some idx => decide (idx ≤ i)
             | none => false) then (l :: acc.1, acc.2)
    else if !cite t && frontMatterPatterns.any (fun p => p t) then
      (acc.1, acc.2 + 1)
    else (l :: acc.1, acc.2)

/-- `stripFrontMatter`. -/
def stripFrontMatter (cite : String → Bool) (s : String) : String × Nat :=
  let lines := splitLines s
  let introIdx := lines.findIdx? (fun l => pFull introRe (goTrimSpace l))
  let acc := stripFrontMatterLoop cite introIdx 0 lines
  (goJoin "\n" acc.1, acc.2)

/-- The email pattern of `stripCorrespondenceEmails`. -/
def emailRe : Re :=
  catL [plus (.cls (fun c => isAsciiLetter c || isDigitAscii c || c = '.' ||
      c = '_' || c = '%' || c = '+' || c = '-')),
    chC '@',
    plus (.cls (fun c => isAsciiLetter c || isDigitAscii c || c = '.' ||
      c = '-')),
    chC '.', .cls isAsciiLetter, plus (.cls isAsciiLetter)]

/-- The correspondence lead pattern of `stripCorrespondenceEmails`. -/
def leadRe : Re :=
  altL [litI "correspondence", litI "corresponding author", litI "contact"]

/-- The line loop of `stripCorrespondenceEmails`. -/
def stripCorrespondenceLoop (cite : String → Bool) :
    List String → List String × Nat
  | [] => ([], 0)
  | l :: rest =>
    let acc := stripCorrespondenceLoop cite rest
    let t := goTrimSpace l
    if t = "" || cite t then (l :: acc.1, acc.2)
    else if pBounded emailRe t || pStartB leadRe t then (acc.1, acc.2 + 1)
    else (l :: acc.1, acc.2)

/-- `stripCorrespondenceEmails`. -/
def stripCorrespondenceEmails (cite : String → Bool) (s : String) :
    String × Nat :=
  let acc := stripCorrespondenceLoop cite (splitLines s)
  (goJoin "\n" acc.1, acc.2)

/-- The caption pattern list of `stripFiguresAndTables`. -/
def captionPatterns : List (String → Bool) :=
  [pFull (catL [altL [litI "figure", catL [litI "fig", chC '.'], litI "table",
      catL [litI "supplementary", plus sCls, .alt (litI "figure") (litI "table")]],
    .star sCls, plus dCls,
    opt (.alt (catL [plus sCls, .star dotCls])
      (catL [.star sCls, clsOf ":.-", .star dotCls]))]),
   pStart (catL [litI "caption", .star sCls, opt (clsOf ":.-")])]

/-- `stripFiguresAndTables`. -/
def stripFiguresAndTables (cite : String → Bool) (s : String) : String × Nat :=
  stripLinesByPatternsProtectingCitations cite s captionPatterns

/-- The line loop of `dropArtifactLines`: every line with fewer visible
runes than the minimum is dropped (the Go code distinguishes
page-number-like lines inside this branch, but both branches drop). -/
def dropArtifactLoop (minLen : Int) : List String → List String × Nat
  | [] => ([], 0)
  | l :: rest =>
    let acc := dropArtifactLoop minLen rest
    if (countVisibleRunes l : Int) < minLen then (acc.1, acc.2 + 1)
    else (l :: acc.1, acc.2)

/-- `dropArtifactLines` (no citation protection). -/
def dropArtifactLines (s : String) (minLen : Int) : String × Nat :=
  let acc := dropArtifactLoop minLen (splitLines s)
  (goJoin "\n" acc.1, acc.2)

/-- The line loop of `dropArtifactLinesProtectingCitations`. -/
def dropArtifactProtectLoop (cite : String → Bool) (minLen : Int) :
    List String → List String × Nat
  | [] => ([], 0)
  | l :: rest =>
    let acc := dropArtifactProtectLoop cite minLen rest
    let t := goTrimSpace l
    if t = "" then (l :: acc.1, acc.2)
    else if cite t then (l :: acc.1, acc.2)
    else if (countVisibleRunes l : Int) < minLen then (acc.1, acc.2 + 1)
    else (l :: acc.1, acc.2)

/-- `dropArtifactLinesProtectingCitations`. -/
def dropArtifactLinesProtectingCitations (cite : String → Bool) (s : String)
    (minLen : Int) : String × Nat :=
  let acc := dropArtifactProtectLoop cite minLen (splitLines s)
  (goJoin "\n" acc.1, acc.2)

/-- The trimmed non-blank short non-citation lines counted by the
repeated-line fallback. -/
def repeatedKeys (cite : String → Bool) (lines : List String) : List String :=
  lines.filterMap (fun l =>
    let t := goTrimSpace l
    if t = "" then none
    else if 120 < (chars t).length then none
    else if cite t then none
    else some t)

/-- The removal loop of `dropRepeatedLinesProtectingCitations`:
non-blank lines whose trimmed text is repetitive are removed. -/
def dropRepeatedLoop (repetitive : String → Bool) :
    List String → List String × Nat
  | [] => ([], 0)
  | l :: rest =>
    let acc := dropRepeatedLoop repetitive rest
    let t := goTrimSpace l
    if t ≠ "" && repetitive t then (acc.1, acc.2 + 1)
    else (l :: acc.1, acc.2)

/-- `dropRepeatedLinesProtectingCitations`: remove every line whose
trimmed text recurs at least `threshold` times among the counted keys;
citation lines are never counted, hence never removed.  When nothing is
repetitive the input string is returned untouched. -/
def dropRepeatedLinesProtectingCitations (cite : String → Bool) (s : String)
    (threshold : Nat) : String × Nat :=
  let lines := splitLines s
  let ks := repeatedKeys cite lines
  if ks.any (fun t => threshold ≤ ks.count t) then
    let acc := dropRepeatedLoop
      (fun t => decide (threshold ≤ ks.count t) && ks.contains t) lines
    (goJoin "\n" acc.1, acc.2)
  else (s, 0)

/-- The header/footer line filter inside `NormalizeExtract`'s per-page
loop: a line whose trimmed text is in the header or footer set is
removed unless it contains a citation, in which case a warning is
recorded and the line is kept verbatim. -/
def removeHeaderFooterLines (cite : String → Bool)
    (headerSet footerSet : List String) :
    List String → List String × List String × Nat × Nat
  | [] => ([], [], 0, 0)
  | l :: rest =>
    let acc := removeHeaderFooterLines cite headerSet footerSet rest
    let t := goTrimSpace l
    if headerSet.contains t then
      if cite t then
        let hw := "header line retained due to detected citation pattern"
        if footerSet.contains t then
          if cite t then
            (l :: acc.1,
             hw :: "footer line retained due to detected citation pattern" ::
               acc.2.1, acc.2.2.1, acc.2.2.2)
          else (acc.1, hw :: acc.2.1, acc.2.2.1, acc.2.2.2 + 1)
        else (l :: acc.1, hw :: acc.2.1, acc.2.2.1, acc.2.2.2)
      else (acc.1, acc.2.1, acc.2.2.1 + 1, acc.2.2.2)
    else if footerSet.contains t then
      if cite t then
        (l :: acc.1,
         "footer line retained due to detected citation pattern" :: acc.2.1,
         acc.2.2.1, acc.2.2.2)
      else (acc.1, acc.2.1, acc.2.2.1, acc.2.2.2 + 1)
    else (l :: acc.1, acc.2.1, acc.2.2.1, acc.2.2.2)



/-! ## The extract value model and NormalizeExtract (the normalizer) -/

mutual
/-- A decoded JSON-like extract value (`any` in Go): a string leaf, an
array, an object with string keys, or any other leaf (numbers,
booleans, null), which `collectAllStrings` ignores. -/
inductive GoValue where
  | str (s : String)
  | other
  | arr (l : GoList)
  | obj (l : GoPairs)

/-- A list of extract values. -/
inductive GoList where
  | nil
  | cons (v : GoValue) (t : GoList)

/-- The key-value pairs of an object (Go map keys are unique). -/
inductive GoPairs where
  | nil
  | cons (k : String) (v : GoValue) (t : GoPairs)
end

/-- Insert a pair into a key-sorted pair list. -/
def insertPairByKey (k : String) (v : GoValue) : GoPairs → GoPairs
  | .nil => .cons k v .nil
  | .cons k2 v2 t =>
    if strLeB k k2 then .cons k v (.cons k2 v2 t)
    else .cons k2 v2 (insertPairByKey k v t)

/-- Sort an object's pairs by key (the Go code sorts the key list and
walks the map in that order; map keys are unique, so walking the sorted
pairs is the same traversal). -/
def sortPairsByKey : GoPairs → GoPairs
  | .nil => .nil
  | .cons k v t => insertPairByKey k v (sortPairsByKey t)

mutual
/-- Recursively sort every object's pairs by key (the Go code sorts the
key list at each object it visits; pre-sorting the whole tree and then
walking it in plain order is the same traversal, since map keys are
unique). -/
def sortTree : GoValue → GoValue
  | .str s => .str s
  | .other => .other
  | .arr l => .arr (sortTreeList l)
  | .obj l => .obj (sortTreePairs l)

/-- Sort every object inside a value list. -/
def sortTreeList : GoList → GoList
  | .nil => .nil
  | .cons v t => .cons (sortTree v) (sortTreeList t)

/-- Sort a pair list by key, sorting the values recursively. -/
def sortTreePairs : GoPairs → GoPairs
  | .nil => .nil
  | .cons k v t => insertPairByKey k (sortTree v) (sortTreePairs t)
end

mutual
/-- Walk a (pre-sorted) value, collecting every trimmed non-empty
string leaf in traversal order; other leaves are ignored. -/
def collectRaw : GoValue → List String
  | .str s => if goTrimSpace s = "" then [] else [goTrimSpace s]
  | .other => []
  | .arr l => collectRawList l
  | .obj l => collectRawPairs l

/-- Collect over a value list. -/
def collectRawList : GoList → List String
  | .nil => []
  | .cons v t => collectRaw v ++ collectRawList t

/-- Collect over object pairs in their (sorted) order. -/
def collectRawPairs : GoPairs → List String
  | .nil => []
  | .cons _ v t => collectRaw v ++ collectRawPairs t
end

/-- `collectAllStrings`: every trimmed non-empty string leaf, arrays in
order, objects in sorted key order, other leaves ignored. -/
def collectAllStrings (v : GoValue) : List String :=
  collectRaw (sortTree v)

/-- Look up a key in an object (Go map indexing; keys are unique). -/
def lookupPair (k : String) : GoPairs → Option GoValue
  | .nil => none
  | .cons k2 v t => if k2 = k then some v else lookupPair k t

/-- Map a Go list to a Lean list. -/
def goListToList : GoList → List GoValue
  | .nil => []
  | .cons v t => v :: goListToList t

/-- `collectPerPageTexts`: per-page texts when the extract is an object
with a non-empty `pages` array (each page's leaf strings sorted and
joined by newlines), otherwise the whole extract aggregated into a
single text joined by blank lines.  The boolean reports whether a pages
structure was used. -/
def collectPerPageTexts (extract : GoValue) : List String × Bool :=
  let fallback : List String × Bool :=
    let aggregated := collectAllStrings extract
    if aggregated.isEmpty then ([], false)
    else ([goJoin "\n\n" aggregated], false)
  match extract with
  | .obj m =>
    match lookupPair "pages" m with
    | some (.arr pagesArr) =>
      match goListToList pagesArr with
      | [] => fallback
      | pages =>
        (pages.map (fun page => goJoin "\n" (sortStrings (collectAllStrings page))),
         true)
    | some _ => fallback
    | none => fallback
  | _ => fallback

/-- `firstNNonEmpty`: the first `n` lines whose trimmed text is
non-empty (the raw lines are kept). -/
def firstNNonEmpty (lines : List String) (n : Nat) : List String :=
  (lines.filter (fun l => goTrimSpace l ≠ "")).take n

/-- `lastNNonEmpty`: the last `n` non-blank lines, in order. -/
def lastNNonEmpty (lines : List String) (n : Nat) : List String :=
  ((lines.reverse.filter (fun l => goTrimSpace l ≠ "")).take n).reverse

/-- The trimmed top-3 keys of every page, with multiplicity (the
header-count map of `detectHeaderFooterLines`). -/
def headerKeys (pageTexts : List String) : List String :=
  pageTexts.flatMap (fun t =>
    ((firstNNonEmpty (splitLines t) 3).map goTrimSpace).filter (fun k => k ≠ ""))

/-- The trimmed bottom-3 keys of every page, with multiplicity. -/
def footerKeys (pageTexts : List String) : List String :=
  pageTexts.flatMap (fun t =>
    ((lastNNonEmpty (splitLines t) 3).map goTrimSpace).filter (fun k => k ≠ ""))

/-- External Unicode primitives used by the normalizer: the NFC
transform of golang.org/x/text and the Unicode letter/number/lowercase
tables of Go's regexp engine.  They are parameters of the embedding;
every theorem is quantified over them. -/
structure UPrim where
  nfc : String → String
  isL : Char → Bool
  isN : Char → Bool
  isLl : Char → Bool

/-- The ligature replacements of `normalizeUnicodeAndLigatures` (all
patterns are single characters, so the Replacer is a per-character
expansion). -/
def expandLigatures (s : String) : String :=
  ofChars ((chars s).flatMap (fun c =>
    if c = 'ﬁ' then ['f', 'i']
    else if c = 'ﬂ' then ['f', 'l']
    else if c = 'ﬀ' then ['f', 'f']
    else if c = 'ﬃ' then ['f', 'f', 'i']
    else if c = 'ﬄ' then ['f', 'f', 'l']
    else if c = 'ﬆ' then ['s', 't']
    else if c = 'œ' then ['o', 'e']
    else if c = 'æ' then ['a', 'e']
    else [c]))

/-- `normalizeUnicodeAndLigatures`: expand ligatures, then apply the
external NFC transform. -/
def normalizeUnicodeAndLigatures (u : UPrim) (s : String) : String :=
  u.nfc (expandLigatures s)

/-- The scanner of `fixHyphenation`: a letter-or-digit, a hyphen, an
optional carriage return, a newline and a lowercase letter collapse to
the letter pair; the scan resumes after the consumed lowercase letter
(non-overlapping leftmost matches).  `fuel` is initialised to the list
length. -/
def fixHyphenAux (u : UPrim) : Nat → List Char → List Char × Nat
  | 0, l => (l, 0)
  | _, [] => ([], 0)
  | fuel + 1, c :: cs =>
    let cont : List Char × Nat :=
      let acc := fixHyphenAux u fuel cs
      (c :: acc.1, acc.2)
    if u.isL c || u.isN c then
      match cs with
      | '-' :: '\r' :: '\n' :: d :: rest =>
        if u.isLl d then
          let acc := fixHyphenAux u fuel rest
          (c :: d :: acc.1, acc.2 + 1)
        else cont
      | '-' :: '\n' :: d :: rest =>
        if u.isLl d then
          let acc := fixHyphenAux u fuel rest
          (c :: d :: acc.1, acc.2 + 1)
        else cont
      | _ => cont
    else cont

/-- `fixHyphenation`. -/
def fixHyphenation (u : UPrim) (s : String) : String × Nat :=
  let acc := fixHyphenAux u (chars s).length (chars s)
  (ofChars acc.1, acc.2)

/-- Split a character list at runs of regex whitespace (Go
`regexp.Split` with the whitespace-run pattern), keeping empty edge
pieces exactly as Go does. -/
def splitSpaceRunsAux : Nat → List Char → List Char → List (List Char)
  | 0, cur, l => [cur.reverse ++ l]
  | _, cur, [] => [cur.reverse]
  | fuel + 1, cur, c :: cs =>
    if goRegexSpace c then
      cur.reverse :: splitSpaceRunsAux fuel [] (cs.dropWhile goRegexSpace)
    else splitSpaceRunsAux fuel (c :: cur) cs

/-- `wordCount`: the number of whitespace-separated fields of the
trimmed string, zero for a blank string. -/
def wordCount (s : String) : Nat :=
  let t := goTrimSpace s
  let fields := splitSpaceRunsAux (chars t).length [] (chars t)
  if fields = [[]] then 0 else fields.length



/-- The normalizer configuration (`NormalizeOptions`); the float64
threshold is modelled as an exact rational. -/
structure NormalizeOptions where
  NormalizeUnicode : Bool
  FixHyphenation : Bool
  CollapseWhitespace : Bool
  HeaderFooterDetection : Bool
  HeaderFooterThreshold : ℚ
  MinArtifactLineLen : Int
  KeepPageBreaks : Bool
  LanguageHint : String
  StripPublisherBoilerplate : Bool
  StripFiguresAndTables : Bool
  StripFrontMatter : Bool
  StripCorrespondenceEmails : Bool
  PublisherHint : String

/-- A normalized page. -/
structure Page where
  Index : Nat
  Text : String
deriving DecidableEq, Repr

/-- Normalization statistics. -/
structure Stats where
  NumPages : Nat
  NumWords : Nat
  NumChars : Nat
  HyphenFixes : Nat
  HeadersRemoved : Nat
  FootersRemoved : Nat
  DroppedLines : Nat
  RemovedBoiler : Nat
  RemovedCaptions : Nat
deriving DecidableEq, Repr

/-- The normalization result. -/
structure NormalizedText where
  FullText : String
  Pages : List Page
  Stats : Stats
  Warnings : List String
deriving DecidableEq, Repr

/-- The per-page counters accumulated by the per-page loop. -/
structure NormCounters where
  hyphenFixes : Nat
  headersRemoved : Nat
  footersRemoved : Nat
  droppedLines : Nat
  removedBoiler : Nat
  removedCaptions : Nat
deriving DecidableEq, Repr

/-- The per-page processing of `NormalizeExtract`: unicode and
hyphenation fixes, header/footer removal with citation protection,
artifact dropping with citation protection, the four stripping passes,
and whitespace collapsing; returns the trimmed page text, the counters
and the warnings. -/
def processPage (u : UPrim) (cite : String → Bool) (opts : NormalizeOptions)
    (headerCount footerCount : String → Nat) (thresholdCount : Int)
    (raw : String) : String × NormCounters × List String :=
  let p1 := if opts.NormalizeUnicode then normalizeUnicodeAndLigatures u raw else raw
  let h := if opts.FixHyphenation then fixHyphenation u p1 else (p1, 0)
  let lines := splitLines h.1
  let top3 := firstNNonEmpty lines 3
  let bot3 := lastNNonEmpty lines 3
  let headerSet := (top3.filter (fun l =>
    decide (thresholdCount ≤ (headerCount (goTrimSpace l) : Int)) ||
      isLikelyPageNumber l)).map goTrimSpace
  let footerSet := (bot3.filter (fun l =>
    decide (thresholdCount ≤ (footerCount (goTrimSpace l) : Int)) ||
      isLikelyPageNumber l)).map goTrimSpace
  let hf := removeHeaderFooterLines cite headerSet footerSet lines
  let p3 := goJoin "\n" hf.1
  let d := if 0 < opts.MinArtifactLineLen then
    dropArtifactLinesProtectingCitations cite p3 opts.MinArtifactLineLen
    else (p3, 0)
  let b1 := if opts.StripPublisherBoilerplate then
    stripPublisherBoilerplate cite d.1 opts.PublisherHint else (d.1, 0)
  let b2 := if opts.StripFrontMatter then stripFrontMatter cite b1.1 else (b1.1, 0)
  let b3 := if opts.StripCorrespondenceEmails then
    stripCorrespondenceEmails cite b2.1 else (b2.1, 0)
  let cp := if opts.StripFiguresAndTables then
    stripFiguresAndTables cite b3.1 else (b3.1, 0)
  let p9 := if opts.CollapseWhitespace then collapseWhitespace cp.1 else cp.1
  (goTrimSpace p9,
   ⟨h.2, hf.2.2.1, hf.2.2.2, d.2, b1.2 + b2.2 + b3.2, cp.2⟩,
   hf.2.1)

/-- Everything `NormalizeExtract` computes before its final emptiness
check: the full text, the pages, the statistics and the warnings. -/
def normalizePipeline (u : UPrim) (cite : String → Bool) (extract : GoValue)
    (opts0 : NormalizeOptions) : String × List Page × Stats × List String :=
  let opts := if opts0.HeaderFooterThreshold ≤ 0 then
    { opts0 with HeaderFooterThreshold := 3 / 5 } else opts0
  let pp := collectPerPageTexts extract
  if pp.2 then
    let pageTexts := pp.1
    let headerCount : String → Nat := fun k =>
      if opts.HeaderFooterDetection then (headerKeys pageTexts).count k else 0
    let footerCount : String → Nat := fun k =>
      if opts.HeaderFooterDetection then (footerKeys pageTexts).count k else 0
    let thresholdCount : Int :=
      Int.ceil (opts.HeaderFooterThreshold * (pageTexts.length : ℚ))
    let processed := pageTexts.map
      (processPage u cite opts headerCount footerCount thresholdCount)
    let pages := processed.enum.map (fun p => Page.mk p.1 p.2.1)
    let warnings := (processed.map (fun p => p.2.2)).flatten
    let hyph := (processed.map (fun p => p.2.1.hyphenFixes)).sum
    let hdr := (processed.map (fun p => p.2.1.headersRemoved)).sum
    let ftr := (processed.map (fun p => p.2.1.footersRemoved)).sum
    let drp := (processed.map (fun p => p.2.1.droppedLines)).sum
    let boi := (processed.map (fun p => p.2.1.removedBoiler)).sum
    let cap := (processed.map (fun p => p.2.1.removedCaptions)).sum
    let fullText := goTrimSpace (goJoin "\n\n" (pages.map (fun p => p.Text)))
    (fullText, pages,
     ⟨pages.length, wordCount fullText, (chars fullText).length,
      hyph, hdr, ftr, drp, boi, cap⟩,
     warnings)
  else
    let allStrings := sortStrings (collectAllStrings extract)
    let f0 := goTrimSpace (goJoin "\n\n" allStrings)
    let f1 := if opts.NormalizeUnicode then normalizeUnicodeAndLigatures u f0 else f0
    let h := if opts.FixHyphenation then fixHyphenation u f1 else (f1, 0)
    let rp := if opts.HeaderFooterDetection then
      dropRepeatedLinesProtectingCitations cite h.1 3 else (h.1, 0)
    let d := if 0 < opts.MinArtifactLineLen then
      dropArtifactLines rp.1 opts.MinArtifactLineLen else (rp.1, 0)
    let b1 := if opts.StripPublisherBoilerplate then
      stripPublisherBoilerplate cite d.1 opts.PublisherHint else (d.1, 0)
    let b2 := if opts.StripFrontMatter then stripFrontMatter cite b1.1 else (b1.1, 0)
    let b3 := if opts.StripCorrespondenceEmails then
      stripCorrespondenceEmails cite b2.1 else (b2.1, 0)
    let cp := if opts.StripFiguresAndTables then
      stripFiguresAndTables cite b3.1 else (b3.1, 0)
    let f9 := if opts.CollapseWhitespace then collapseWhitespace cp.1 else cp.1
    (f9, [],
     ⟨0, wordCount f9, (chars f9).length,
      h.2, 0, 0, d.2, rp.2 + b1.2 + b2.2 + b3.2, cp.2⟩,
     [])

/-- `NormalizeExtract`: run the pipeline and fail with "no text
extracted" exactly when the processed full text is empty or
whitespace-only. -/
def NormalizeExtract (u : UPrim) (cite : String → Bool) (extract : GoValue)
    (opts : NormalizeOptions) : Except String NormalizedText :=
  let r := normalizePipeline u cite extract opts
  if goTrimSpace r.1 = "" then Except.error "no text extracted"
  else Except.ok ⟨r.1, r.2.1, r.2.2.1, r.2.2.2⟩



/-- Decidable equality for `Except` results. -/
instance exceptDecEq {ε α : Type} [DecidableEq ε] [DecidableEq α] :
    DecidableEq (Except ε α)
  | .error a, .error b =>
    if h : a = b then .isTrue (by rw [h])
    else .isFalse (fun hc => h (Except.error.inj hc))
  | .error _, .ok _ => .isFalse (fun hc => Except.noConfusion hc)
  | .ok _, .error _ => .isFalse (fun hc => Except.noConfusion hc)
  | .ok a, .ok b =>
    if h : a = b then .isTrue (by rw [h])
    else .isFalse (fun hc => h (Except.ok.inj hc))




/-- A concrete instantiation of the external Unicode primitives, used
only in runs whose options never invoke them. -/
def idPrim : UPrim := ⟨fun s => s, fun _ => false, fun _ => false, fun _ => false⟩

/-- Options enabling only artifact-line dropping (minimum 10 visible
runes). -/
def artifactOpts : NormalizeOptions :=
  ⟨false, false, false, false, 1, 10, false, "", false, false, false, false, ""⟩

/-- Options with every transformation disabled. -/
def plainOpts : NormalizeOptions :=
  ⟨false, false, false, false, 1, 0, false, "", false, false, false, false, ""⟩

theorem mem_dropArtifactProtectLoop (cite : String → Bool) (minLen : Int)
    (lines : List String) :
    ∀ l ∈ lines, cite (goTrimSpace l) = true →
      l ∈ (dropArtifactProtectLoop cite minLen lines).1 := by
  induction lines with
  | nil => intro l hl; exact absurd hl (List.not_mem_nil l)
  | cons x rest ih =>
    intro l hl hc
    simp only [dropArtifactProtectLoop]
    rcases List.mem_cons.mp hl with rfl | hl'
    · by_cases ht : goTrimSpace l = ""
      · rw [if_pos ht]; exact List.mem_cons_self _ _
      · rw [if_neg ht, if_pos hc]; exact List.mem_cons_self _ _
    · have hrec := ih l hl' hc
      by_cases ht : goTrimSpace x = ""
      · rw [if_pos ht]; exact List.mem_cons_of_mem _ hrec
      · rw [if_neg ht]
        by_cases hcx : cite (goTrimSpace x) = true
        · rw [if_pos hcx]; exact List.mem_cons_of_mem _ hrec
        · rw [if_neg hcx]
          split
          · exact hrec
          · exact List.mem_cons_of_mem _ hrec

theorem mem_dropRepeatedLoop (repetitive : String → Bool) (lines : List String) :
    ∀ l ∈ lines, repetitive (goTrimSpace l) = false →
      l ∈ (dropRepeatedLoop repetitive lines).1 := by
  induction lines with
  | nil => intro l hl; exact absurd hl (List.not_mem_nil l)
  | cons x rest ih =>
    intro l hl hc
    simp only [dropRepeatedLoop]
    rcases List.mem_cons.mp hl with rfl | hl'
    · rw [if_neg (by rw [hc]; simp)]
      exact List.mem_cons_self _ _
    · have hrec := ih l hl' hc
      split
      · exact hrec
      · exact List.mem_cons_of_mem _ hrec

theorem cite_not_in_repeatedKeys (cite : String → Bool) (lines : List String)
    (t : String) (hc : cite t = true) : t ∉ repeatedKeys cite lines := by
  intro hmem
  unfold repeatedKeys at hmem
  obtain ⟨l, _, hsome⟩ := List.mem_filterMap.mp hmem
  by_cases h1 : goTrimSpace l = ""
  · simp [h1] at hsome
  · by_cases h2 : 120 < (chars (goTrimSpace l)).length
    · simp [h1, h2] at hsome
    · by_cases h3 : cite (goTrimSpace l) = true
      · simp [h1, h2, h3] at hsome
      · simp only [h1, h2, if_false] at hsome
        rw [if_neg h3] at hsome
        rw [Option.some.injEq] at hsome
        subst hsome
        exact h3 hc

theorem mem_stripLinesLoop (cite : String → Bool)
    (patterns : List (String → Bool)) (lines : List String) :
    ∀ l ∈ lines, cite (goTrimSpace l) = true →
      l ∈ (stripLinesLoop cite patterns lines).1 := by
  induction lines with
  | nil => intro l hl; exact absurd hl (List.not_mem_nil l)
  | cons x rest ih =>
    intro l hl hc
    simp only [stripLinesLoop]
    rcases List.mem_cons.mp hl with rfl | hl'
    · by_cases ht : goTrimSpace l = ""
      · rw [if_pos ht]; exact List.mem_cons_self _ _
      · rw [if_neg ht, if_pos hc]; exact List.mem_cons_self _ _
    · have hrec := ih l hl' hc
      by_cases ht : goTrimSpace x = ""
      · rw [if_pos ht]; exact List.mem_cons_of_mem _ hrec
      · rw [if_neg ht]
        by_cases hcx : cite (goTrimSpace x) = true
        · rw [if_pos hcx]; exact List.mem_cons_of_mem _ hrec
        · rw [if_neg hcx]
          split
          · exact hrec
          · exact List.mem_cons_of_mem _ hrec

theorem mem_stripFrontMatterLoop (cite : String → Bool) (introIdx : Option Nat)
    (lines : List String) :
    ∀ i, ∀ l ∈ lines, cite (goTrimSpace l) = true →
      l ∈ (stripFrontMatterLoop cite introIdx i lines).1 := by
  induction lines with
  | nil => intro i l hl; exact absurd hl (List.not_mem_nil l)
  | cons x rest ih =>
    intro i l hl hc
    simp only [stripFrontMatterLoop]
    rcases List.mem_cons.mp hl with rfl | hl'
    · by_cases ht : goTrimSpace l = ""
      · rw [if_pos ht]; exact List.mem_cons_self _ _
      · rw [if_neg ht]
        split
        · exact List.mem_cons_self _ _
        · rw [if_neg (by rw [hc]; simp)]
          exact List.mem_cons_self _ _
    · have hrec := ih (i + 1) l hl' hc
      by_cases ht : goTrimSpace x = ""
      · rw [if_pos ht]; exact List.mem_cons_of_mem _ hrec
      · rw [if_neg ht]
        split
        · exact List.mem_cons_of_mem _ hrec
        · split
          · exact hrec
          · exact List.mem_cons_of_mem _ hrec

theorem mem_stripCorrespondenceLoop (cite : String → Bool) (lines : List String) :
    ∀ l ∈ lines, cite (goTrimSpace l) = true →
      l ∈ (stripCorrespondenceLoop cite lines).1 := by
  induction lines with
  | nil => intro l hl; exact absurd hl (List.not_mem_nil l)
  | cons x rest ih =>
    intro l hl hc
    simp only [stripCorrespondenceLoop]
    rcases List.mem_cons.mp hl with rfl | hl'
    · rw [if_pos (by rw [hc]; simp)]
      exact List.mem_cons_self _ _
    · have hrec := ih l hl' hc
      split
      · exact List.mem_cons_of_mem _ hrec
      · split
        · exact hrec
        · exact List.mem_cons_of_mem _ hrec

theorem mem_removeHeaderFooterLines (cite : String → Bool)
    (hs fs : List String) (lines : List String) :
    ∀ l ∈ lines, cite (goTrimSpace l) = true →
      l ∈ (removeHeaderFooterLines cite hs fs lines).1 ∧
      ((hs.contains (goTrimSpace l) = true ∨ fs.contains (goTrimSpace l) = true) →
        (removeHeaderFooterLines cite hs fs lines).2.1 ≠ []) := by
  induction lines with
  | nil => intro l hl; exact absurd hl (List.not_mem_nil l)
  | cons x rest ih =>
    intro l hl hc
    simp only [removeHeaderFooterLines]
    rcases List.mem_cons.mp hl with rfl | hl'
    · by_cases hh : hs.contains (goTrimSpace l) = true
      · rw [if_pos hh, if_pos hc]
        by_cases hf : fs.contains (goTrimSpace l) = true
        · rw [if_pos hf, if_pos hc]
          exact ⟨List.mem_cons_self _ _, fun _ => by simp⟩
        · rw [if_neg hf]
          exact ⟨List.mem_cons_self _ _, fun _ => by simp⟩
      · rw [if_neg hh]
        by_cases hf : fs.contains (goTrimSpace l) = true
        · rw [if_pos hf, if_pos hc]
          exact ⟨List.mem_cons_self _ _, fun _ => by simp⟩
        · rw [if_neg hf]
          refine ⟨List.mem_cons_self _ _, fun hor => ?_⟩
          rcases hor with h | h
          · exact absurd h hh
          · exact absurd h hf
    · have hrec := ih l hl' hc
      by_cases hhx : hs.contains (goTrimSpace x) = true
      · rw [if_pos hhx]
        by_cases hcx : cite (goTrimSpace x) = true
        · rw [if_pos hcx]
          by_cases hfx : fs.contains (goTrimSpace x) = true
          · rw [if_pos hfx, if_pos hcx]
            exact ⟨List.mem_cons_of_mem _ hrec.1, fun _ => by simp⟩
          · rw [if_neg hfx]
            exact ⟨List.mem_cons_of_mem _ hrec.1, fun _ => by simp⟩
        · rw [if_neg hcx]
          exact ⟨hrec.1, fun hor => hrec.2 hor⟩
      · rw [if_neg hhx]
        by_cases hfx : fs.contains (goTrimSpace x) = true
        · rw [if_pos hfx]
          by_cases hcx : cite (goTrimSpace x) = true
          · rw [if_pos hcx]
            exact ⟨List.mem_cons_of_mem _ hrec.1, fun _ => by simp⟩
          · rw [if_neg hcx]
            exact ⟨hrec.1, fun hor => hrec.2 hor⟩
        · rw [if_neg hfx]
          exact ⟨List.mem_cons_of_mem _ hrec.1, fun hor => hrec.2 hor⟩



/-- Claim C2: `NormalizeExtract` fails exactly when the fully processed
full text is empty or whitespace-only, the error is always "no text
extracted" (the only failure), and on success the returned full text is
the processed text, which is neither empty nor whitespace-only. -/
theorem normalizeExtract_empty_failure (u : UPrim) (cite : String → Bool)
    (e : GoValue) (o : NormalizeOptions) :
    (NormalizeExtract u cite e o = Except.error "no text extracted" ↔
      goTrimSpace (normalizePipeline u cite e o).1 = "") ∧
    (∀ err, NormalizeExtract u cite e o = Except.error err →
      err = "no text extracted") ∧
    (∀ r, NormalizeExtract u cite e o = Except.ok r →
      r.FullText = (normalizePipeline u cite e o).1 ∧
      goTrimSpace r.FullText ≠ "" ∧ r.FullText ≠ "") := by
  unfold NormalizeExtract
  by_cases h : goTrimSpace (normalizePipeline u cite e o).1 = ""
  · rw [if_pos h]
    refine ⟨⟨fun _ => h, fun _ => rfl⟩, fun err herr => ?_, fun r hr => ?_⟩
    · exact (Except.error.inj herr).symm
    · exact absurd hr (fun hc => Except.noConfusion hc)
  · rw [if_neg h]
    refine ⟨⟨fun hc => absurd hc (fun hc2 => Except.noConfusion hc2),
      fun hc => absurd hc h⟩, fun err herr => ?_, fun r hr => ?_⟩
    · exact absurd herr (fun hc => Except.noConfusion hc)
    · have hr' := Except.ok.inj hr
      subst hr'
      refine ⟨rfl, h, fun hc => ?_⟩
      exact h (by rw [show (normalizePipeline u cite e o).1 = "" from hc]; rfl)

/-- Claim C2, witness: a whitespace-only extract fails with the exact
error, and a plain text extract succeeds with a non-empty full text. -/
theorem normalizeExtract_empty_failure_witness :
    NormalizeExtract idPrim ContainsCitation (GoValue.str "   ") plainOpts =
      Except.error "no text extracted" ∧
    NormalizeExtract idPrim ContainsCitation (GoValue.str "hello world text")
      plainOpts =
      Except.ok ⟨"hello world text", [], ⟨0, 3, 16, 0, 0, 0, 0, 0, 0⟩, []⟩ ∧
    (⟨"hello world text", [], ⟨0, 3, 16, 0, 0, 0, 0, 0, 0⟩, []⟩ :
      NormalizedText).FullText ≠ "" :=
  ⟨(normalizeExtract_empty_failure idPrim ContainsCitation (GoValue.str "   ")
      plainOpts).1.mpr (by decide),
   by decide,
   ((normalizeExtract_empty_failure idPrim ContainsCitation
      (GoValue.str "hello world text") plainOpts).2.2 _ (by decide)).2.2⟩

/-- Claim C1, counterexample: a line consisting of the citation "[12]"
(detected by the numeric-bracket and footnote patterns) is removed by
the fallback path's short-artifact-line dropping, which uses the
unprotected `dropArtifactLines`; the whole normalization even fails
because nothing is left, with no warning recorded — refuting both the
never-removed clause and the warning clause. -/
theorem citation_protection_counterexample :
    ContainsCitation "[12]" = true ∧
    NormalizeExtract idPrim ContainsCitation (GoValue.str "[12]") artifactOpts =
      Except.error "no text extracted" := by
  decide

/-- Claim C1 (amended): every stripping step that protects citations
keeps any line whose trimmed text satisfies the citation predicate:
artifact dropping (per-page path), the repeated-line fallback,
pattern-based stripping (publisher boilerplate and captions), front
matter, correspondence, and header/footer removal — the latter also
records a warning whenever such a line is in the header or footer set.
The fallback path's artifact dropping is unprotected (see the
counterexample), and no step other than header/footer removal records a
warning. -/
theorem citation_line_protection (cite : String → Bool) :
    (∀ s minLen, ∀ l ∈ splitLines s, cite (goTrimSpace l) = true →
      l ∈ (dropArtifactProtectLoop cite minLen (splitLines s)).1) ∧
    (∀ s threshold, ∀ l ∈ splitLines s, cite (goTrimSpace l) = true →
      l ∈ (dropRepeatedLoop
        (fun t => decide (threshold ≤ (repeatedKeys cite (splitLines s)).count t) &&
          (repeatedKeys cite (splitLines s)).contains t) (splitLines s)).1) ∧
    (∀ s patterns, ∀ l ∈ splitLines s, cite (goTrimSpace l) = true →
      l ∈ (stripLinesLoop cite patterns (splitLines s)).1) ∧
    (∀ s introIdx i, ∀ l ∈ splitLines s, cite (goTrimSpace l) = true →
      l ∈ (stripFrontMatterLoop cite introIdx i (splitLines s)).1) ∧
    (∀ s, ∀ l ∈ splitLines s, cite (goTrimSpace l) = true →
      l ∈ (stripCorrespondenceLoop cite (splitLines s)).1) ∧
    (∀ hs fs lines, ∀ l ∈ lines, cite (goTrimSpace l) = true →
      l ∈ (removeHeaderFooterLines cite hs fs lines).1 ∧
      ((hs.contains (goTrimSpace l) = true ∨ fs.contains (goTrimSpace l) = true) →
        (removeHeaderFooterLines cite hs fs lines).2.1 ≠ [])) := by
  refine ⟨?_, ?_, ?_, ?_, ?_, ?_⟩
  · intro s minLen l hl hc
    exact mem_dropArtifactProtectLoop cite minLen (splitLines s) l hl hc
  · intro s threshold l hl hc
    apply mem_dropRepeatedLoop _ (splitLines s) l hl
    have hks := cite_not_in_repeatedKeys cite (splitLines s) (goTrimSpace l) hc
    have : (repeatedKeys cite (splitLines s)).contains (goTrimSpace l) = false := by
      cases hcont : (repeatedKeys cite (splitLines s)).contains (goTrimSpace l)
      · rfl
      · exact absurd (List.mem_of_elem_eq_true hcont) hks
    rw [this]
    simp
  · intro s patterns l hl hc
    exact mem_stripLinesLoop cite patterns (splitLines s) l hl hc
  · intro s introIdx i l hl hc
    exact mem_stripFrontMatterLoop cite introIdx (splitLines s) i l hl hc
  · intro s l hl hc
    exact mem_stripCorrespondenceLoop cite (splitLines s) l hl hc
  · intro hs fs lines l hl hc
    exact mem_removeHeaderFooterLines cite hs fs lines l hl hc

/-- Claim C1, witness: a concrete citation line surviving artifact
dropping, and a concrete citation line in the header set that is kept
with a warning recorded. -/
theorem citation_line_protection_witness :
    "[1]" ∈ splitLines "[1]\nab" ∧
    ContainsCitation (goTrimSpace "[1]") = true ∧
    "[1]" ∈ (dropArtifactProtectLoop ContainsCitation 10
      (splitLines "[1]\nab")).1 ∧
    (removeHeaderFooterLines ContainsCitation ["[1]"] [] ["[1]", "ab"]).2.1 ≠ [] :=
  ⟨by decide, by decide,
   (citation_line_protection ContainsCitation).1 "[1]\nab" 10 "[1]"
     (by decide) (by decide),
   ((citation_line_protection ContainsCitation).2.2.2.2.2 ["[1]"] [] ["[1]", "ab"]
     "[1]" (by decide) (by decide)).2 (by decide)⟩

end PaperHand
